import Mathlib

/-!
Verification of the asynchronous summarization pipeline of the
telegram-summary-bot repository: the single-consumer task queue
(src/utils/telegramSafety.js, TaskQueue), the two-backend AI gateway
(src/services/aiService.js), the response recovery pipeline
(src/services/ai/responseHandler.js), the delivery escalation layer
(src/services/taskQueueHandler.js) and the small sanitization utilities
(src/services/ai/utils.js, src/services/chatPermissionService.js).

JavaScript strings are modelled as Lean String / List Char; machine
integers, chat ids and timestamps as Int / Nat; fallible operations as
Except / Option; the single-threaded event-loop interleaving of the task
queue as an explicit action-step function.
-/

namespace SummaryBot

/-- The character written with a single straight apostrophe. -/
def apostropheChar : Char := Char.ofNat 39

/-- The backtick (code-marker) character. -/
def backtickChar : Char := Char.ofNat 96

/-- Left brace character. -/
def lbrace : Char := Char.ofNat 123

/-- Right brace character. -/
def rbrace : Char := Char.ofNat 125

/-! ## src/services/ai/utils.js : makeSafeUserName -/

/-- The five Telegram-Markdown reserved characters that
makeSafeUserName removes: underscore, asterisk, backtick,
left bracket, right bracket. -/
def reservedNameChars : List Char := ['_', '*', backtickChar, '[', ']']

/-- Global single-character regex replace, the model of
String.prototype.replace with a one-character pattern and a
one-character replacement (every occurrence replaced). -/
def replaceChar (c d : Char) (l : List Char) : List Char :=
  l.map fun x => if x = c then d else x

/-- Core of makeSafeUserName on a (non-empty) string: the five
replacements in source order, underscore to dash, asterisk to middle
dot, backtick to apostrophe, brackets to parentheses. -/
def makeSafeUserNameCore (l : List Char) : List Char :=
  replaceChar ']' ')'
    (replaceChar '[' '('
      (replaceChar backtickChar apostropheChar
        (replaceChar '*' '·'
          (replaceChar '_' '-' l))))

/-- A JavaScript argument as observed by makeSafeUserName: either a
string or some non-string value. -/
inductive JsArg where
  | str (s : String)
  | num (n : Int)
  | nullv
  | undef
  deriving DecidableEq, Repr

/-- makeSafeUserName from src/services/ai/utils.js restricted to string
arguments: the empty string is falsy in JavaScript and is returned
unchanged by the early-return guard. -/
def makeSafeUserNameString (s : String) : String :=
  if s = "" then s else ⟨makeSafeUserNameCore s.data⟩

/-- makeSafeUserName from src/services/ai/utils.js: a falsy argument
(empty string, null, undefined) or a non-string argument is returned
unchanged; otherwise each reserved character is replaced by its benign
substitute. -/
def makeSafeUserName : JsArg → JsArg
  | .str s => .str (makeSafeUserNameString s)
  | v => v

lemma replaceChar_not_mem (c d : Char) (l : List Char) (h : c ≠ d) :
    c ∉ replaceChar c d l := by
  intro hmem
  simp only [replaceChar, List.mem_map] at hmem
  obtain ⟨x, _, hx⟩ := hmem
  by_cases hxc : x = c
  · simp [hxc] at hx; exact h hx.symm
  · simp [hxc] at hx

lemma replaceChar_mem_of_mem (c d e : Char) (l : List Char)
    (h : e ∈ replaceChar c d l) : e = d ∨ e ∈ l := by
  simp only [replaceChar, List.mem_map] at h
  obtain ⟨x, hx, hxe⟩ := h
  by_cases hxc : x = c
  · simp [hxc] at hxe; exact Or.inl hxe.symm
  · simp [hxc] at hxe; exact Or.inr (hxe ▸ hx)

lemma makeSafeUserNameCore_no_reserved (l : List Char) :
    ∀ c ∈ makeSafeUserNameCore l, c ∉ reservedNameChars := by
  intro c hc hres
  unfold makeSafeUserNameCore at hc
  simp only [reservedNameChars, List.mem_cons, List.not_mem_nil, or_false] at hres
  rcases hres with rfl | rfl | rfl | rfl | rfl
  · -- underscore: replaced at the innermost layer, never reintroduced
    rcases replaceChar_mem_of_mem _ _ _ _ hc with h | hc
    · exact absurd h (by decide)
    rcases replaceChar_mem_of_mem _ _ _ _ hc with h | hc
    · exact absurd h (by decide)
    rcases replaceChar_mem_of_mem _ _ _ _ hc with h | hc
    · exact absurd h (by decide)
    rcases replaceChar_mem_of_mem _ _ _ _ hc with h | hc
    · exact absurd h (by decide)
    exact replaceChar_not_mem '_' '-' l (by decide) hc
  · rcases replaceChar_mem_of_mem _ _ _ _ hc with h | hc
    · exact absurd h (by decide)
    rcases replaceChar_mem_of_mem _ _ _ _ hc with h | hc
    · exact absurd h (by decide)
    rcases replaceChar_mem_of_mem _ _ _ _ hc with h | hc
    · exact absurd h (by decide)
    exact replaceChar_not_mem '*' '·' _ (by decide) hc
  · rcases replaceChar_mem_of_mem _ _ _ _ hc with h | hc
    · exact absurd h (by decide)
    rcases replaceChar_mem_of_mem _ _ _ _ hc with h | hc
    · exact absurd h (by decide)
    exact replaceChar_not_mem backtickChar apostropheChar _ (by decide) hc
  · rcases replaceChar_mem_of_mem _ _ _ _ hc with h | hc
    · exact absurd h (by decide)
    exact replaceChar_not_mem '[' '(' _ (by decide) hc
  · exact replaceChar_not_mem ']' ')' _ (by decide) hc

lemma makeSafeUserNameString_no_reserved (s : String) :
    ∀ c ∈ (makeSafeUserNameString s).data, c ∉ reservedNameChars := by
  unfold makeSafeUserNameString
  by_cases h : s = ""
  · simp [h]
  · simpa [h] using makeSafeUserNameCore_no_reserved s.data

/-! ## src/services/aiService.js : the author-label sanitization
(summarizeMessages, lines 149-156) -/

/-- One archived chat message as consumed by summarizeMessages. -/
structure ChatMessage where
  first_name : Option String
  username : Option String
  user_id : Int
  text : String
  deriving DecidableEq, Repr

/-- The JavaScript a-or-else-b idiom for strings, where undefined and
the empty string are falsy. -/
def firstTruthy (a : Option String) (b : String) : String :=
  match a with
  | some s => if s = "" then b else s
  | none => b

/-- The raw author label chosen by summarizeMessages:
first_name, else username, else the literal user tag. -/
def rawUserName (m : ChatMessage) : String :=
  firstTruthy m.first_name (firstTruthy m.username ("用户" ++ toString m.user_id))

/-- One line of the prompt text built by summarizeMessages:
the sanitized author label, a colon and the message text. -/
def buildMessageLine (m : ChatMessage) : String :=
  makeSafeUserNameString (rawUserName m) ++ ": " ++ m.text

/-- The messageTexts array built by summarizeMessages before joining
with newlines into the prompt. -/
def messageTexts (msgs : List ChatMessage) : List String :=
  msgs.map buildMessageLine

/-- C10: for every string input makeSafeUserName returns a string with
none of the reserved markup characters (underscore, asterisk, backtick,
brackets), each occurrence being replaced by its benign substitute;
non-string and empty inputs are returned unchanged; and every author
label in the prompt lines built by summarizeMessages passes through this
sanitization. -/
theorem makeSafeUserName_sanitizes :
    (∀ s : String, ∀ c ∈ (makeSafeUserNameString s).data, c ∉ reservedNameChars)
    ∧ (∀ s : String, s ≠ "" →
        (makeSafeUserNameString s).data
          = s.data.map (fun c =>
              if c = '_' then '-' else if c = '*' then '·'
              else if c = backtickChar then apostropheChar
              else if c = '[' then '(' else if c = ']' then ')' else c))
    ∧ (∀ v : JsArg, (∀ s, v ≠ JsArg.str s) → makeSafeUserName v = v)
    ∧ (makeSafeUserName (JsArg.str "") = JsArg.str "")
    ∧ (∀ msgs : List ChatMessage, ∀ m ∈ msgs,
        messageTexts msgs = msgs.map buildMessageLine
        ∧ buildMessageLine m
            = makeSafeUserNameString (rawUserName m) ++ ": " ++ m.text
        ∧ ∀ c ∈ (makeSafeUserNameString (rawUserName m)).data,
            c ∉ reservedNameChars) := by
  refine ⟨makeSafeUserNameString_no_reserved, ?_, ?_, ?_, ?_⟩
  · intro s hs
    unfold makeSafeUserNameString
    simp only [hs, if_false]
    show makeSafeUserNameCore s.data = _
    unfold makeSafeUserNameCore replaceChar
    simp only [List.map_map]
    apply List.map_congr_left
    intro c _
    simp only [Function.comp]
    by_cases h1 : c = '_' <;> by_cases h2 : c = '*' <;>
      by_cases h3 : c = backtickChar <;> by_cases h4 : c = '[' <;>
      by_cases h5 : c = ']' <;>
      simp_all <;> decide
  · intro v hv
    cases v with
    | str s => exact absurd rfl (hv s)
    | num n => rfl
    | nullv => rfl
    | undef => rfl
  · rfl
  · intro msgs m _
    exact ⟨rfl, rfl, makeSafeUserNameString_no_reserved _⟩

/-- Witness for C10 at concrete inputs: a name with an underscore and an
asterisk is rewritten to dashes and middle dots, a null argument is
unchanged, and a concrete prompt line carries the sanitized label. -/
theorem makeSafeUserName_sanitizes_witness :
    ('_' ∉ (makeSafeUserNameString "a_b*c").data)
    ∧ (makeSafeUserNameString "a_b*c").data
        = "a_b*c".data.map (fun c =>
            if c = '_' then '-' else if c = '*' then '·'
            else if c = backtickChar then apostropheChar
            else if c = '[' then '(' else if c = ']' then ')' else c)
    ∧ makeSafeUserName JsArg.nullv = JsArg.nullv := by
  refine ⟨?_, ?_, ?_⟩
  · intro hmem
    exact makeSafeUserName_sanitizes.1 "a_b*c" '_' hmem (by decide)
  · exact makeSafeUserName_sanitizes.2.1 "a_b*c" (by decide)
  · exact makeSafeUserName_sanitizes.2.2.1 JsArg.nullv (fun s h => JsArg.noConfusion h)

/-! ## src/services/aiService.js : generateContentWithFallback
(the two-backend provider gateway, lines 45-126) -/

/-- One chat message of a completion request. -/
structure PromptMessage where
  role : String
  content : String
  deriving DecidableEq, Repr

/-- The options object passed to generateContentWithFallback. -/
structure GenRequest where
  messages : List PromptMessage
  max_tokens : Option Nat
  temperature : Option ℚ
  top_p : Option ℚ
  response_format : Option String
  deriving DecidableEq, Repr

/-- The per-backend options object handed to
client.chat.completions.create; only the model name differs between the
primary and fallback shapes. -/
structure ProviderOptions where
  model : String
  messages : List PromptMessage
  max_tokens : Option Nat
  temperature : Option ℚ
  top_p : Option ℚ
  response_format : Option String
  deriving DecidableEq, Repr

/-- A JavaScript Error thrown by a backend call. -/
structure JsError where
  message : String
  deriving DecidableEq, Repr

/-- A raw completion response; the gateway treats it opaquely and only
spreads it into the tagged result. -/
structure ChatResponse where
  content : String
  finish_reason : String
  total_tokens : Nat
  deriving DecidableEq, Repr

/-- Which backend answered (modelUsed tag in the source: the string
values are the literals primary and fallback). -/
inductive ModelUsed where
  | primary
  | fallback
  deriving DecidableEq, Repr

/-- The tagged result of generateContentWithFallback: the spread
response plus modelUsed / modelName, and for the fallback path the
primaryError message. -/
structure TaggedResponse where
  response : ChatResponse
  modelUsed : ModelUsed
  modelName : String
  primaryError : Option String
  deriving DecidableEq, Repr

/-- The failure modes of generateContentWithFallback: primary failed
with no fallback configured (a plain error, the primary error is NOT
attached), or both backends failed (the composite error retaining
both). -/
inductive GenFailure where
  | noFallbackConfigured
  | allModelsFailed (primaryError : JsError) (fallbackError : JsError)
  deriving DecidableEq, Repr

/-- The primaryOptions object built at lines 55-65 of
src/services/aiService.js. -/
def mkPrimaryOptions (geminiModel : String) (o : GenRequest) : ProviderOptions :=
  { model := geminiModel
    messages := o.messages
    max_tokens := o.max_tokens
    temperature := o.temperature
    top_p := o.top_p
    response_format := o.response_format }

/-- The fallbackOptions object built at lines 91-101 of
src/services/aiService.js. -/
def mkFallbackOptions (azureDeployment : String) (o : GenRequest) : ProviderOptions :=
  { model := azureDeployment
    messages := o.messages
    max_tokens := o.max_tokens
    temperature := o.temperature
    top_p := o.top_p
    response_format := o.response_format }

/-- A backend client, modelled by the behavior of one call to
chat.completions.create. -/
def BackendClient : Type := ProviderOptions → Except JsError ChatResponse

/-- generateContentWithFallback from src/services/aiService.js: try the
primary backend, on any exception try the fallback with the same
semantic parameters, raise the composite error only when both fail.
Returns the result together with the trace of backend calls made. -/
def generateContentWithFallback (geminiModel azureDeployment : String)
    (primaryClient fallbackClient : Option BackendClient) (o : GenRequest) :
    Except GenFailure TaggedResponse × List (ModelUsed × ProviderOptions) :=
  let primaryOptions := mkPrimaryOptions geminiModel o
  let fallbackOptions := mkFallbackOptions azureDeployment o
  -- the catch branch of the primary try block
  let afterPrimaryFailure :
      JsError → List (ModelUsed × ProviderOptions) →
        Except GenFailure TaggedResponse × List (ModelUsed × ProviderOptions) :=
    fun primaryError calls =>
      match fallbackClient with
      | none => (.error .noFallbackConfigured, calls)
      | some g =>
        match g fallbackOptions with
        | .ok r =>
          (.ok { response := r, modelUsed := .fallback, modelName := "Azure OpenAI",
                 primaryError := some primaryError.message },
           calls ++ [(.fallback, fallbackOptions)])
        | .error fallbackError =>
          (.error (.allModelsFailed primaryError fallbackError),
           calls ++ [(.fallback, fallbackOptions)])
  match primaryClient with
  | none =>
    -- the throw at line 51 is caught by the same try and becomes primaryError
    afterPrimaryFailure ⟨"主要模型 (Gemini) 未配置"⟩ []
  | some f =>
    match f primaryOptions with
    | .ok r =>
      (.ok { response := r, modelUsed := .primary, modelName := "Gemini",
             primaryError := none },
       [(.primary, primaryOptions)])
    | .error primaryError =>
      afterPrimaryFailure primaryError [(.primary, primaryOptions)]

/-- C2: with both backends configured, the gateway always calls the
primary first; on any primary exception it calls the fallback with the
same semantic parameters (only the model name differs); a success is
tagged with the backend that answered; and it fails only when both
backends fail, with a composite error retaining both underlying
errors. -/
theorem generateContentWithFallback_failover
    (gm ad : String) (f g : BackendClient) (o : GenRequest) :
    (generateContentWithFallback gm ad (some f) (some g) o).2.head?
        = some (.primary, mkPrimaryOptions gm o)
    ∧ (∀ e, f (mkPrimaryOptions gm o) = .error e →
        (generateContentWithFallback gm ad (some f) (some g) o).2
            = [(.primary, mkPrimaryOptions gm o), (.fallback, mkFallbackOptions ad o)]
        ∧ (mkFallbackOptions ad o).messages = (mkPrimaryOptions gm o).messages
        ∧ (mkFallbackOptions ad o).max_tokens = (mkPrimaryOptions gm o).max_tokens
        ∧ (mkFallbackOptions ad o).temperature = (mkPrimaryOptions gm o).temperature
        ∧ (mkFallbackOptions ad o).top_p = (mkPrimaryOptions gm o).top_p
        ∧ (mkFallbackOptions ad o).response_format
            = (mkPrimaryOptions gm o).response_format)
    ∧ (∀ t, (generateContentWithFallback gm ad (some f) (some g) o).1 = .ok t →
        (t.modelUsed = .primary ↔ ∃ r, f (mkPrimaryOptions gm o) = .ok r)
        ∧ (t.modelUsed = .fallback ↔
            ∃ e r, f (mkPrimaryOptions gm o) = .error e
              ∧ g (mkFallbackOptions ad o) = .ok r))
    ∧ (∀ err, (generateContentWithFallback gm ad (some f) (some g) o).1 = .error err →
        ∃ e fe, f (mkPrimaryOptions gm o) = .error e
          ∧ g (mkFallbackOptions ad o) = .error fe
          ∧ err = .allModelsFailed e fe) := by
  cases hf : f (mkPrimaryOptions gm o) with
  | ok r =>
    refine ⟨by simp [generateContentWithFallback, hf], ?_, ?_, ?_⟩
    · intro e he; exact absurd he (by simp)
    · intro t ht
      simp [generateContentWithFallback, hf] at ht
      subst ht
      constructor
      · simp [hf]
      · simp [hf]
    · intro err herr
      simp [generateContentWithFallback, hf] at herr
  | error e =>
    cases hg : g (mkFallbackOptions ad o) with
    | ok r =>
      refine ⟨by simp [generateContentWithFallback, hf, hg], ?_, ?_, ?_⟩
      · intro e' he'
        refine ⟨by simp [generateContentWithFallback, hf, hg], rfl, rfl, rfl, rfl, rfl⟩
      · intro t ht
        simp [generateContentWithFallback, hf, hg] at ht
        subst ht
        constructor
        · simp [hf]
        · simp [hf, hg]
      · intro err herr
        simp [generateContentWithFallback, hf, hg] at herr
    | error fe =>
      refine ⟨by simp [generateContentWithFallback, hf, hg], ?_, ?_, ?_⟩
      · intro e' he'
        refine ⟨by simp [generateContentWithFallback, hf, hg], rfl, rfl, rfl, rfl, rfl⟩
      · intro t ht
        simp [generateContentWithFallback, hf, hg] at ht
      · intro err herr
        simp [generateContentWithFallback, hf, hg] at herr
        exact ⟨e, fe, rfl, rfl, herr.symm⟩

/-- Witness for C2: a primary that always throws and a fallback that
succeeds yield a result tagged fallback after two calls, the second
carrying the same semantic parameters. -/
theorem generateContentWithFallback_failover_witness :
    (generateContentWithFallback "gm" "ad"
        (some (fun _ => .error ⟨"primary down"⟩))
        (some (fun _ => .ok ⟨"ok", "stop", 7⟩))
        { messages := [⟨"user", "hi"⟩], max_tokens := some 50,
          temperature := none, top_p := none, response_format := none }).2
      = [(.primary, mkPrimaryOptions "gm"
            { messages := [⟨"user", "hi"⟩], max_tokens := some 50,
              temperature := none, top_p := none, response_format := none }),
         (.fallback, mkFallbackOptions "ad"
            { messages := [⟨"user", "hi"⟩], max_tokens := some 50,
              temperature := none, top_p := none, response_format := none })] := by
  have h := generateContentWithFallback_failover "gm" "ad"
      (fun _ => .error ⟨"primary down"⟩) (fun _ => .ok ⟨"ok", "stop", 7⟩)
      { messages := [⟨"user", "hi"⟩], max_tokens := some 50,
        temperature := none, top_p := none, response_format := none }
  exact (h.2.1 ⟨"primary down"⟩ rfl).1

/-! ## src/utils/telegramErrors.js and
src/services/taskQueueHandler.js : error classification -/

/-- Naive substring test, the model of String.prototype.includes. -/
def strContains (s pat : String) : Bool :=
  (List.range (s.data.length + 1)).any fun i => pat.data.isPrefixOf (s.data.drop i)

/-- The response object attached to a Telegram API error. -/
structure TgResponse where
  error_code : Nat
  description : String
  deriving DecidableEq, Repr

/-- An error observed by the delivery layer; fields default to absent /
empty as in JavaScript. -/
structure TgError where
  code : Option String
  type : Option String
  status : Option Nat
  message : String
  description : Option String
  response : Option TgResponse
  deriving DecidableEq, Repr

/-- ASCII lowercasing, the model of String.prototype.toLowerCase for
the ASCII phrases compared by the permission-error test. -/
def asciiToLower (s : String) : String :=
  ⟨s.data.map fun c =>
    if 65 ≤ c.toNat ∧ c.toNat ≤ 90 then Char.ofNat (c.toNat + 32) else c⟩

/-- getTelegramErrorDescription from src/utils/telegramErrors.js:
response description, else top-level description, else message,
else the empty string. -/
def getTelegramErrorDescription (e : TgError) : String :=
  firstTruthy (e.response.map (·.description))
    (firstTruthy e.description (firstTruthy (some e.message) ""))

/-- isSendMessageForbiddenError from src/utils/telegramErrors.js. -/
def isSendMessageForbiddenError (e : TgError) : Bool :=
  let description := asciiToLower (getTelegramErrorDescription e)
  if description = "" then false
  else if (match e.response with
           | some r => decide (r.error_code ≠ 0) && !(r.error_code ∈ [400, 403])
           | none => false) then false
  else
    strContains description "not enough rights to send text messages to the chat"
    || strContains description "not enough rights to send messages"
    || strContains description "have no rights to send a message"
    || strContains description "chat write forbidden"

/-- isNetworkError from src/services/taskQueueHandler.js. -/
def isNetworkError (e : TgError) : Bool :=
  (match e.code with
   | some c => c ∈ ["ETIMEDOUT", "ECONNREFUSED", "ENOTFOUND", "ECONNRESET"]
   | none => false)
  || (match e.type with
      | some t => t ∈ ["system", "network"]
      | none => false)
  || (decide (e.message ≠ "") && strContains e.message "connect ETIMEDOUT")
  || (decide (e.message ≠ "") && strContains e.message "network")
  || (match e.response with
      | some r => r.error_code == 429
      | none => false)

/-- isContentFilterError from src/services/taskQueueHandler.js:
the content_filter code, or a status-400 error whose message matches a
content-policy phrase. -/
def isContentFilterError (e : TgError) : Bool :=
  if e.code = some "content_filter" then true
  else
    let errorString := e.message
    (e.status == some 400)
    && (strContains errorString "content management policy"
        || strContains errorString "content filtering"
        || strContains errorString "filtered due to the prompt"
        || strContains errorString
            ("Azure OpenAI" ++ String.singleton apostropheChar
              ++ "s content management policy")
        || strContains errorString "ResponsibleAIPolicyViolation"
        || strContains errorString "content_filter_result"
        || strContains errorString "违反内容政策"
        || strContains errorString "内容过滤")

/-- The markup-parse-specific error phrase checked by
sendSingleSummary. -/
def cantParseEntities : String :=
  "can" ++ String.singleton apostropheChar ++ "t parse entities"

/-- The markup-parse error test repeated at each escalation step of
sendSingleSummary: a 400 response whose description mentions the
entity-parse failure. -/
def isMarkdownParseError (e : TgError) : Bool :=
  match e.response with
  | some r =>
    r.error_code == 400 && decide (r.description ≠ "")
      && strContains r.description cantParseEntities
  | none => false

/-! ## src/services/taskQueueHandler.js : sendSingleSummary
(the four-representation escalation, lines 300-439) -/

/-- The four output representations tried by sendSingleSummary. -/
inductive Rep where
  | native
  | escaped
  | safeMarkdown
  | plain
  deriving DecidableEq, Repr

/-- sendSingleSummary from src/services/taskQueueHandler.js, with the
outcome of the i-th safeSendTelegramMessage call supplied by the
environment (the rendered texts of the representations are irrelevant
to the escalation decisions and are abstracted away). Returns the
representations attempted in order and the final outcome. -/
def sendSingleSummary (send : Nat → Except TgError Unit) :
    List Rep × Except TgError Unit :=
  match send 0 with
  | .ok _ => ([.native], .ok ())
  | .error markdownError =>
    if isNetworkError markdownError then ([.native], .error markdownError)
    else if isMarkdownParseError markdownError then
      match send 1 with
      | .ok _ => ([.native, .escaped], .ok ())
      | .error escapedError =>
        if isNetworkError escapedError then
          ([.native, .escaped], .error escapedError)
        else if isMarkdownParseError escapedError then
          match send 2 with
          | .ok _ => ([.native, .escaped, .safeMarkdown], .ok ())
          | .error _ =>
            -- the safe-markdown catch only logs; control falls through
            -- to the plain-text attempt whatever the error class
            match send 3 with
            | .ok _ => ([.native, .escaped, .safeMarkdown, .plain], .ok ())
            | .error e => ([.native, .escaped, .safeMarkdown, .plain], .error e)
        else
          -- a non-network, non-parse escapedError also falls through to
          -- the plain-text attempt
          match send 2 with
          | .ok _ => ([.native, .escaped, .plain], .ok ())
          | .error e => ([.native, .escaped, .plain], .error e)
    else ([.native], .error markdownError)

/-- The error classes relevant to the escalation. -/
inductive ErrClass where
  | network
  | markupParse
  | otherError
  deriving DecidableEq, Repr

/-- Classification of a send error in the precedence order the source
checks them. -/
def classifySendError (e : TgError) : ErrClass :=
  if isNetworkError e then .network
  else if isMarkdownParseError e then .markupParse
  else .otherError

/-- The amended escalation schedule, written from the corrected claim:
native first; escalate to escaped only on a markup-parse error; after
the escaped attempt a network error aborts, a markup-parse error leads
to the sanitized attempt, and any other error skips directly to plain
text; after a failed sanitized attempt control always falls through to
plain text. -/
def escalationPlanAmended (send : Nat → Except TgError Unit) : List Rep :=
  match send 0 with
  | .ok _ => [.native]
  | .error e0 =>
    match classifySendError e0 with
    | .network => [.native]
    | .otherError => [.native]
    | .markupParse =>
      match send 1 with
      | .ok _ => [.native, .escaped]
      | .error e1 =>
        match classifySendError e1 with
        | .network => [.native, .escaped]
        | .markupParse =>
          match send 2 with
          | .ok _ => [.native, .escaped, .safeMarkdown]
          | .error _ => [.native, .escaped, .safeMarkdown, .plain]
        | .otherError =>
          match send 2 with
          | .ok _ => [.native, .escaped, .plain]
          | .error _ => [.native, .escaped, .plain]

lemma classifySendError_network {e : TgError} (h : isNetworkError e = true) :
    classifySendError e = .network := by
  simp [classifySendError, h]

lemma classifySendError_parse {e : TgError} (hn : isNetworkError e = false)
    (hp : isMarkdownParseError e = true) : classifySendError e = .markupParse := by
  simp [classifySendError, hn, hp]

lemma classifySendError_other {e : TgError} (hn : isNetworkError e = false)
    (hp : isMarkdownParseError e = false) : classifySendError e = .otherError := by
  simp [classifySendError, hn, hp]

/-- C5 (amended): the attempted representations follow the amended
schedule; the first attempt is always native markup; escalation from
native happens only on a markup-parse error; the sanitized
representation is attempted only after the escaped one failed with a
markup-parse error; but the plain-text representation can be reached
after a non-markup-parse, non-network error of the escaped attempt, and
after any failure of the sanitized attempt, so a non-markup-parse error
does not always abort the escalation. -/
theorem sendSingleSummary_escalation (send : Nat → Except TgError Unit) :
    (sendSingleSummary send).1 = escalationPlanAmended send
    ∧ (sendSingleSummary send).1.head? = some .native
    ∧ (Rep.escaped ∈ (sendSingleSummary send).1 →
        ∃ e, send 0 = .error e ∧ isNetworkError e = false
          ∧ isMarkdownParseError e = true)
    ∧ (Rep.safeMarkdown ∈ (sendSingleSummary send).1 →
        ∃ e, send 1 = .error e ∧ isNetworkError e = false
          ∧ isMarkdownParseError e = true)
    ∧ (Rep.plain ∈ (sendSingleSummary send).1 →
        ∃ e, send 1 = .error e ∧ isNetworkError e = false) := by
  cases h0 : send 0 with
  | ok u =>
    simp [sendSingleSummary, escalationPlanAmended, h0]
  | error e0 =>
    by_cases hn0 : isNetworkError e0
    · simp [sendSingleSummary, escalationPlanAmended, h0, hn0,
        classifySendError_network hn0]
    · by_cases hp0 : isMarkdownParseError e0
      · have hc0 := classifySendError_parse (by simpa using hn0) hp0
        cases h1 : send 1 with
        | ok u =>
          simp [sendSingleSummary, escalationPlanAmended, h0, hn0, hp0, hc0, h1]
        | error e1 =>
          by_cases hn1 : isNetworkError e1
          · simp [sendSingleSummary, escalationPlanAmended, h0, hn0, hp0, hc0, h1,
              hn1, classifySendError_network hn1]
          · by_cases hp1 : isMarkdownParseError e1
            · have hc1 := classifySendError_parse (by simpa using hn1) hp1
              cases h2 : send 2 with
              | ok u =>
                simp [sendSingleSummary, escalationPlanAmended, h0, hn0, hp0, hc0,
                  h1, hn1, hp1, hc1, h2]
              | error e2 =>
                cases h3 : send 3 with
                | ok u =>
                  simp [sendSingleSummary, escalationPlanAmended, h0, hn0, hp0,
                    hc0, h1, hn1, hp1, hc1, h2, h3]
                | error e3 =>
                  simp [sendSingleSummary, escalationPlanAmended, h0, hn0, hp0,
                    hc0, h1, hn1, hp1, hc1, h2, h3]
            · have hc1 := classifySendError_other (by simpa using hn1)
                (by simpa using hp1)
              cases h2 : send 2 with
              | ok u =>
                simp [sendSingleSummary, escalationPlanAmended, h0, hn0, hp0, hc0,
                  h1, hn1, hp1, hc1, h2]
              | error e2 =>
                simp [sendSingleSummary, escalationPlanAmended, h0, hn0, hp0, hc0,
                  h1, hn1, hp1, hc1, h2]
      · simp [sendSingleSummary, escalationPlanAmended, h0, hn0, hp0,
          classifySendError_other (by simpa using hn0) (by simpa using hp0)]

/-- The first counterexample error: a markup-parse failure of the
native attempt. -/
def ceParseError : TgError :=
  { code := none, type := none, status := none, message := "",
    description := none,
    response := some ⟨400, "Bad Request: " ++ cantParseEntities ++ " at byte offset 5"⟩ }

/-- The second counterexample error: a 400 that is neither a
markup-parse error nor a network error (an oversized message). -/
def ceOtherError : TgError :=
  { code := none, type := none, status := none, message := "",
    description := none,
    response := some ⟨400, "Bad Request: message is too long"⟩ }

/-- The counterexample environment for C5: native fails with a
markup-parse error, escaped fails with the non-markup 400, the next
attempt succeeds. -/
def ceSend : Nat → Except TgError Unit
  | 0 => .error ceParseError
  | 1 => .error ceOtherError
  | _ => .ok ()

/-- C5 counterexample: after the escaped representation fails with an
error that is neither markup-parse-specific nor a network error, the
source still advances to the plain-text representation instead of
aborting the escalation. -/
theorem sendSingleSummary_claim_counterexample :
    isMarkdownParseError ceOtherError = false
    ∧ isNetworkError ceOtherError = false
    ∧ (sendSingleSummary ceSend).1 = [.native, .escaped, .plain]
    ∧ (sendSingleSummary ceSend).2 = .ok () := by
  refine ⟨by decide, by decide, by decide, rfl⟩

/-- Witness for C5 (amended) at the counterexample environment: the
escaped representation was reached, and its preconditions are exactly a
markup-parse failure of the native attempt. -/
theorem sendSingleSummary_escalation_witness :
    (sendSingleSummary ceSend).1 = escalationPlanAmended ceSend
    ∧ ∃ e, ceSend 0 = .error e ∧ isNetworkError e = false
        ∧ isMarkdownParseError e = true := by
  refine ⟨(sendSingleSummary_escalation ceSend).1, ?_⟩
  exact (sendSingleSummary_escalation ceSend).2.2.1 (by decide)

/-! ## src/services/chatPermissionService.js and the delivery skeleton
of src/services/taskQueueHandler.js (handleTaskCompleted /
handleTaskFailed) -/

/-- The metadata stored for a send-restricted chat. -/
structure RestrictionMeta where
  restricted : Bool
  reason : String
  deriving DecidableEq, Repr

/-- One NodeCache entry of the chat_send_restricted keyspace: the
metadata and the absolute expiry instant (seconds), computed by
NodeCache as set-time plus ttl. -/
structure PermEntry where
  chatId : Int
  meta : RestrictionMeta
  expiresAt : Nat
  deriving DecidableEq, Repr

/-- The keyed restriction store (cacheService custom cache restricted
to the chat_send_restricted keys). -/
abbrev PermState : Type := List PermEntry

/-- Map.set-like update: replace the entry of the key if present,
append otherwise. -/
def permSet (st : PermState) (chatId : Int) (meta : RestrictionMeta)
    (expiresAt : Nat) : PermState :=
  if st.any (·.chatId == chatId) then
    st.map fun p => if p.chatId == chatId then ⟨chatId, meta, expiresAt⟩ else p
  else st ++ [⟨chatId, meta, expiresAt⟩]

/-- Cache lookup honoring the expiry: entries past their ttl behave as
absent (NodeCache returns undefined for them). -/
def permGet (st : PermState) (now : Nat) (chatId : Int) : Option RestrictionMeta :=
  match st.find? (·.chatId == chatId) with
  | some p => if now ≤ p.expiresAt then some p.meta else none
  | none => none

/-- DEFAULT_RESTRICTION_TTL from src/services/chatPermissionService.js:
six hours, in seconds. -/
def DEFAULT_RESTRICTION_TTL : Nat := 6 * 60 * 60

/-- markChatSendRestricted: a falsy chat id is ignored, otherwise the
restriction metadata is stored with the given ttl (the source default
is DEFAULT_RESTRICTION_TTL). -/
def markChatSendRestricted (st : PermState) (now : Nat) (chatId : Int)
    (reason : String) (ttl : Nat) : PermState :=
  if chatId = 0 then st
  else permSet st chatId ⟨true, reason⟩ (now + ttl)

/-- isChatSendRestricted: a falsy chat id is never restricted,
otherwise the flag is the restricted field of the live cache entry. -/
def isChatSendRestricted (st : PermState) (now : Nat) (chatId : Int) : Bool :=
  if chatId = 0 then false
  else match permGet st now chatId with
    | some meta => meta.restricted
    | none => false

/-- A network call performed by the delivery layer (an editMessageText
or sendMessage round-trip). -/
inductive NetCall where
  | edit (chatId : Int) (messageId : Nat)
  | send (chatId : Int)
  deriving DecidableEq, Repr

/-- The lifecycle event payload consumed by the delivery handlers. -/
structure TaskEventPayload where
  taskId : String
  chatId : Int
  userId : Int
  deriving DecidableEq, Repr

/-- The observable outcome of one best-effort send block: the network
calls it performed and the error it raised, if any. -/
structure SendBlockOutcome where
  calls : List NetCall
  error : Option TgError
  deriving DecidableEq, Repr

/-- The environment of one handleTaskCompleted run: the cached
placeholder message id (task_message cache), the outcome of the main
render-and-send body (formatSummaryResponse plus sendSingleSummary or
sendSegmentedSummary, abstracted to its calls and final error), and the
outcome of whichever error-branch send runs afterwards
(sendNetworkErrorMessage / sendContentFilterMessage /
sendFallbackMessage). -/
structure DeliverEnv where
  messageInfo : Option Nat
  body : SendBlockOutcome
  errorBranch : SendBlockOutcome
  deriving DecidableEq, Repr

/-- The shared shape of the error-branch senders of
src/services/taskQueueHandler.js: perform the fallback send; if it
fails with a permission error, mark the chat restricted (with the
default ttl); other failures are only logged. -/
def runErrorBranchSend (st : PermState) (now : Nat) (chatId : Int)
    (out : SendBlockOutcome) (acc : List NetCall) : PermState × List NetCall :=
  let calls := acc ++ out.calls
  match out.error with
  | some fe =>
    if isSendMessageForbiddenError fe then
      (markChatSendRestricted st now chatId (getTelegramErrorDescription fe)
        DEFAULT_RESTRICTION_TTL, calls)
    else (st, calls)
  | none => (st, calls)

/-- handleTaskCompleted from src/services/taskQueueHandler.js
(lines 204-295): skip everything while the chat is send-restricted;
otherwise run the body, and on an exception classify it: a
permission error marks the chat send-restricted with the default
six-hour ttl, a network / content-filter / other error runs its
dedicated fallback sender. -/
def handleTaskCompleted (st : PermState) (now : Nat) (ev : TaskEventPayload)
    (env : DeliverEnv) : PermState × List NetCall :=
  if isChatSendRestricted st now ev.chatId then (st, [])
  else
    match env.messageInfo with
    | none => (st, [])
    | some _ =>
      match env.body.error with
      | none => (st, env.body.calls)
      | some e =>
        if isSendMessageForbiddenError e then
          (markChatSendRestricted st now ev.chatId (getTelegramErrorDescription e)
            DEFAULT_RESTRICTION_TTL, env.body.calls)
        else if isNetworkError e then
          runErrorBranchSend st now ev.chatId env.errorBranch env.body.calls
        else if isContentFilterError e then
          runErrorBranchSend st now ev.chatId env.errorBranch env.body.calls
        else
          runErrorBranchSend st now ev.chatId env.errorBranch env.body.calls

/-- handleTaskFailed from src/services/taskQueueHandler.js
(lines 537-616): same restricted-chat guard, then one error-message
send whose permission failure also marks the chat. -/
def handleTaskFailed (st : PermState) (now : Nat) (ev : TaskEventPayload)
    (env : DeliverEnv) : PermState × List NetCall :=
  if isChatSendRestricted st now ev.chatId then (st, [])
  else
    match env.messageInfo with
    | none => (st, [])
    | some _ =>
      match env.body.error with
      | none => (st, env.body.calls)
      | some e =>
        if isSendMessageForbiddenError e then
          (markChatSendRestricted st now ev.chatId (getTelegramErrorDescription e)
            DEFAULT_RESTRICTION_TTL, env.body.calls)
        else (st, env.body.calls)

lemma permGet_permSet_self (st : PermState) (chatId : Int)
    (meta : RestrictionMeta) (t exp : Nat) (ht : t ≤ exp) :
    permGet (permSet st chatId meta exp) t chatId = some meta := by
  unfold permGet permSet
  by_cases h : st.any (·.chatId == chatId)
  · simp only [if_pos h]
    have : List.find? (fun p => p.chatId == chatId)
        (st.map fun p => if p.chatId == chatId then ⟨chatId, meta, exp⟩ else p)
        = some ⟨chatId, meta, exp⟩ := by
      induction st with
      | nil => simp [List.any] at h
      | cons a as ih =>
        by_cases ha : a.chatId == chatId
        · simp [List.find?, ha]
        · simp only [List.map, List.find?, ha, if_neg (by simpa using ha)]
          simp only [List.any_cons, ha, Bool.false_or] at h
          simpa [ha] using ih h
    rw [this]
    simp [ht]
  · simp only [if_neg h]
    have : List.find? (fun p => p.chatId == chatId) (st ++ [⟨chatId, meta, exp⟩])
        = some ⟨chatId, meta, exp⟩ := by
      induction st with
      | nil => simp [List.find?]
      | cons a as ih =>
        have ha : (a.chatId == chatId) = false := by
          cases hb : (a.chatId == chatId)
          · rfl
          · exact absurd
              (show ((a :: as).any fun x => x.chatId == chatId) = true by
                simp [hb]) h
        simp only [List.cons_append, List.find?, ha]
        exact ih fun hmem => h (by simp [List.any_cons, hmem])
    rw [this]
    simp [ht]

lemma handleTaskCompleted_restricted (st : PermState) (now : Nat)
    (ev : TaskEventPayload) (env : DeliverEnv)
    (h : isChatSendRestricted st now ev.chatId = true) :
    handleTaskCompleted st now ev env = (st, []) := by
  unfold handleTaskCompleted
  rw [h]
  simp

lemma handleTaskFailed_restricted (st : PermState) (now : Nat)
    (ev : TaskEventPayload) (env : DeliverEnv)
    (h : isChatSendRestricted st now ev.chatId = true) :
    handleTaskFailed st now ev env = (st, []) := by
  unfold handleTaskFailed
  rw [h]
  simp

/-- C6: a permission-denied send failure marks the conversation
send-restricted with the default six-hour ttl, and while the flag is
live every later delivery of a completed or failed result to that
conversation returns before performing any network call. -/
theorem sendRestriction_suppresses_delivery (st : PermState) (now : Nat)
    (ev : TaskEventPayload) (env : DeliverEnv) (mid : Nat) (e : TgError)
    (hchat : ev.chatId ≠ 0)
    (hfree : isChatSendRestricted st now ev.chatId = false)
    (hmi : env.messageInfo = some mid)
    (hbody : env.body.error = some e)
    (hforb : isSendMessageForbiddenError e = true) :
    let st' := (handleTaskCompleted st now ev env).1
    (∀ t, t ≤ now + DEFAULT_RESTRICTION_TTL →
      isChatSendRestricted st' t ev.chatId = true)
    ∧ (∀ t, t ≤ now + DEFAULT_RESTRICTION_TTL →
        ∀ ev2 env2, ev2.chatId = ev.chatId →
          handleTaskCompleted st' t ev2 env2 = (st', [])
          ∧ handleTaskFailed st' t ev2 env2 = (st', [])) := by
  have hst' : (handleTaskCompleted st now ev env).1
      = permSet st ev.chatId ⟨true, getTelegramErrorDescription e⟩
          (now + DEFAULT_RESTRICTION_TTL) := by
    simp [handleTaskCompleted, hfree, hmi, hbody, hforb,
      markChatSendRestricted, hchat]
  have hlive : ∀ t, t ≤ now + DEFAULT_RESTRICTION_TTL →
      isChatSendRestricted (handleTaskCompleted st now ev env).1 t ev.chatId
        = true := by
    intro t ht
    rw [hst']
    simp [isChatSendRestricted, hchat, permGet_permSet_self st ev.chatId _ t _ ht]
  refine ⟨hlive, ?_⟩
  intro t ht ev2 env2 hsame
  have hres : isChatSendRestricted (handleTaskCompleted st now ev env).1 t ev2.chatId
      = true := by rw [hsame]; exact hlive t ht
  exact ⟨handleTaskCompleted_restricted _ _ _ _ hres,
    handleTaskFailed_restricted _ _ _ _ hres⟩

/-- A concrete permission-denied Telegram error. -/
def ceForbiddenError : TgError :=
  { code := none, type := none, status := none, message := "",
    description := none,
    response := some ⟨403, "Forbidden: bot is not a member of the group chat, " ++
      "have no rights to send a message"⟩ }

/-- Witness for C6: with an empty store at time 1000, a permission
failure marks chat 42 restricted, and a delivery retried 21600 seconds
later is still skipped with no network call. -/
theorem sendRestriction_suppresses_delivery_witness :
    let env : DeliverEnv :=
      { messageInfo := some 7,
        body := { calls := [NetCall.edit 42 7], error := some ceForbiddenError },
        errorBranch := { calls := [], error := none } }
    let st' := (handleTaskCompleted [] 1000 ⟨"t1", 42, 5⟩ env).1
    isChatSendRestricted st' (1000 + DEFAULT_RESTRICTION_TTL) 42 = true
    ∧ handleTaskCompleted st' (1000 + DEFAULT_RESTRICTION_TTL) ⟨"t2", 42, 5⟩ env
        = (st', []) := by
  intro env st'
  have h := sendRestriction_suppresses_delivery [] 1000 ⟨"t1", 42, 5⟩ env 7
    ceForbiddenError (by decide) (by decide) rfl rfl (by decide)
  exact ⟨h.1 (1000 + DEFAULT_RESTRICTION_TTL) le_rfl,
    (h.2 (1000 + DEFAULT_RESTRICTION_TTL) le_rfl ⟨"t2", 42, 5⟩ env rfl).1⟩

/-! ## src/utils/telegramSafety.js : the TaskQueue

The queue runs on the single-threaded JavaScript event loop: a call to
addSummaryTask executes synchronously up to the first await inside
processSummaryTask (the provider call), and every other interleaving
point is the resolution of that provider promise. The model therefore
exposes two actions: enqueue (addSummaryTask plus the synchronous
prefix of processQueue), and finish (the resolution of the awaited
summarizeMessages call with a result or an exception, plus the
synchronous continuation of the drain loop up to its next await).
Task ids (generateTaskId produces unique opaque strings) are modelled
as consecutive naturals in call order, which also encodes the enqueue
order. -/

/-- The opaque summary payload produced by the workflow. -/
structure SummaryData where
  summary : String
  deriving DecidableEq, Repr

/-- The payload of one summarization task. -/
structure TaskData where
  chatId : Int
  userId : Int
  messageCount : Nat
  deriving DecidableEq, Repr

/-- Task lifecycle states. -/
inductive TaskStatus where
  | queued
  | processing
  | completed
  | failed
  deriving DecidableEq, Repr

/-- A task object (status lives in the taskStatus map). -/
structure QueueTask where
  id : Nat
  data : TaskData
  deriving DecidableEq, Repr

/-- A stored task result (success with data, or failure with the error
message). -/
structure TaskResult where
  success : Bool
  data : Option SummaryData
  error : Option String
  deriving DecidableEq, Repr

/-- The lifecycle events emitted by the queue. -/
inductive QueueEvent where
  | taskStarted (id : Nat)
  | taskCompleted (id : Nat) (chatId userId : Int) (result : SummaryData)
  | taskFailed (id : Nat) (chatId userId : Int) (error : String)
  deriving DecidableEq, Repr

/-- Map.set on an association list keyed by task id: replace in place,
else append. -/
def mapSet {α : Type} (l : List (Nat × α)) (id : Nat) (v : α) :
    List (Nat × α) :=
  if l.any (·.1 == id) then l.map fun p => if p.1 == id then (id, v) else p
  else l ++ [(id, v)]

/-- Map.get on an association list. -/
def mapGet {α : Type} (l : List (Nat × α)) (id : Nat) : Option α :=
  (l.find? (·.1 == id)).map (·.2)

/-- The TaskQueue instance state. -/
structure QueueState where
  queue : List QueueTask
  processing : Bool
  currentTask : Option QueueTask
  taskStatus : List (Nat × TaskStatus)
  taskResults : List (Nat × TaskResult)
  events : List QueueEvent
  nextId : Nat
  deriving DecidableEq, Repr

/-- The actions at which the event loop can interleave. -/
inductive QueueAction where
  | enqueue (data : TaskData)
  | finish (outcome : Except String SummaryData)
  deriving Repr

/-- The synchronous start of the next drain-loop iteration: pop the
oldest task, mark it processing, emit taskStarted and suspend at the
provider call; with an empty queue the loop exits and clears the
processing flag. -/
def startNext (s : QueueState) : QueueState :=
  match s.queue with
  | [] => { s with processing := false, currentTask := none }
  | t :: rest =>
    { s with queue := rest, currentTask := some t,
             taskStatus := mapSet s.taskStatus t.id .processing,
             events := s.events ++ [.taskStarted t.id] }

/-- setTaskResult from src/utils/telegramSafety.js: store the result
and, if the task is still known, flip its status to completed or
failed. -/
def setTaskResult (s : QueueState) (id : Nat) (r : TaskResult) : QueueState :=
  { s with taskResults := mapSet s.taskResults id r,
           taskStatus :=
             if (mapGet s.taskStatus id).isSome then
               mapSet s.taskStatus id (if r.success then .completed else .failed)
             else s.taskStatus }

/-- addSummaryTask plus the synchronous prefix of processQueue: push
the new queued task; if the drain loop is already running (or the queue
is somehow empty) return immediately, otherwise set the processing flag
and start the first iteration. -/
def enqueueStep (s : QueueState) (d : TaskData) : QueueState :=
  let t : QueueTask := ⟨s.nextId, d⟩
  let s1 : QueueState :=
    { s with queue := s.queue ++ [t],
             taskStatus := mapSet s.taskStatus t.id .queued,
             nextId := s.nextId + 1 }
  if s1.processing then s1
  else if s1.queue = [] then s1
  else startNext { s1 with processing := true }

/-- The resolution of the awaited provider call for the current task:
processSummaryTask records the result and emits taskCompleted, or
catches the exception, records the failure and emits taskFailed; then
the drain loop clears currentTask and continues with the next queued
task. Without a task in flight no such promise exists and the action
is a no-op. -/
def finishStep (s : QueueState) (outcome : Except String SummaryData) :
    QueueState :=
  match s.currentTask with
  | none => s
  | some t =>
    let s1 : QueueState :=
      match outcome with
      | .ok r =>
        let s' := setTaskResult s t.id ⟨true, some r, none⟩
        { s' with events :=
            s'.events ++ [.taskCompleted t.id t.data.chatId t.data.userId r] }
      | .error msg =>
        let s' := setTaskResult s t.id ⟨false, none, some msg⟩
        { s' with events :=
            s'.events ++ [.taskFailed t.id t.data.chatId t.data.userId msg] }
    startNext { s1 with currentTask := none }

/-- One event-loop step. -/
def queueStep (s : QueueState) : QueueAction → QueueState
  | .enqueue d => enqueueStep s d
  | .finish outcome => finishStep s outcome

/-- The freshly constructed TaskQueue. -/
def initQueueState : QueueState :=
  { queue := [], processing := false, currentTask := none,
    taskStatus := [], taskResults := [], events := [], nextId := 0 }

/-- Run a sequence of event-loop actions from the initial state. -/
def runQueue (acts : List QueueAction) : QueueState :=
  acts.foldl queueStep initQueueState

/-- Ids of the taskStarted events, in emission order. -/
def startedIds (evts : List QueueEvent) : List Nat :=
  evts.filterMap fun e =>
    match e with
    | .taskStarted id => some id
    | _ => none

/-- Ids of the taskCompleted / taskFailed events, in emission order. -/
def finishedIds (evts : List QueueEvent) : List Nat :=
  evts.filterMap fun e =>
    match e with
    | .taskCompleted id _ _ _ => some id
    | .taskFailed id _ _ _ => some id
    | _ => none

/-- Number of tasks currently recorded as processing. -/
def processingCount (s : QueueState) : Nat :=
  s.taskStatus.countP fun p => p.2 == .processing

lemma startedIds_append (a b : List QueueEvent) :
    startedIds (a ++ b) = startedIds a ++ startedIds b := by
  simp [startedIds, List.filterMap_append]

lemma finishedIds_append (a b : List QueueEvent) :
    finishedIds (a ++ b) = finishedIds a ++ finishedIds b := by
  simp [finishedIds, List.filterMap_append]

lemma startedIds_started (id : Nat) :
    startedIds [QueueEvent.taskStarted id] = [id] := rfl

lemma startedIds_completed (id : Nat) (c u : Int) (r : SummaryData) :
    startedIds [QueueEvent.taskCompleted id c u r] = [] := rfl

lemma startedIds_failed (id : Nat) (c u : Int) (msg : String) :
    startedIds [QueueEvent.taskFailed id c u msg] = [] := rfl

lemma finishedIds_started (id : Nat) :
    finishedIds [QueueEvent.taskStarted id] = [] := rfl

lemma finishedIds_completed (id : Nat) (c u : Int) (r : SummaryData) :
    finishedIds [QueueEvent.taskCompleted id c u r] = [id] := rfl

lemma finishedIds_failed (id : Nat) (c u : Int) (msg : String) :
    finishedIds [QueueEvent.taskFailed id c u msg] = [id] := rfl

lemma mapSet_keys {α : Type} (l : List (Nat × α)) (id : Nat) (v : α) :
    (mapSet l id v).map (·.1)
      = if l.any (·.1 == id) then l.map (·.1) else l.map (·.1) ++ [id] := by
  unfold mapSet
  by_cases h : l.any (·.1 == id)
  · simp only [if_pos h, List.map_map]
    apply List.map_congr_left
    intro p _
    by_cases hp : p.1 == id
    · simp only [Function.comp, hp, if_pos]
      exact (by simpa using hp : p.1 = id).symm
    · simp [Function.comp, hp]
  · simp [h]

lemma any_key_eq_true_iff {α : Type} (l : List (Nat × α)) (id : Nat) :
    l.any (·.1 == id) = true ↔ id ∈ l.map (·.1) := by
  simp only [List.any_eq_true, List.mem_map]
  constructor
  · rintro ⟨p, hp, hpe⟩
    exact ⟨p, hp, by simpa using hpe⟩
  · rintro ⟨p, hp, hpe⟩
    exact ⟨p, hp, by simp [hpe]⟩

lemma mem_mapSet {α : Type} {l : List (Nat × α)} {id : Nat} {v : α}
    {p : Nat × α} (h : p ∈ mapSet l id v) :
    p = (id, v) ∨ (p ∈ l ∧ p.1 ≠ id) := by
  unfold mapSet at h
  by_cases hany : l.any (·.1 == id)
  · simp only [if_pos hany, List.mem_map] at h
    obtain ⟨q, hq, hqe⟩ := h
    by_cases hqid : q.1 == id
    · left; simp only [if_pos hqid] at hqe; exact hqe.symm
    · right
      simp only [if_neg hqid] at hqe
      subst hqe
      exact ⟨hq, by simpa using hqid⟩
  · simp only [if_neg hany, List.mem_append, List.mem_singleton] at h
    rcases h with h | h
    · right
      refine ⟨h, fun hpid => ?_⟩
      exact hany (List.any_eq_true.mpr ⟨p, h, by simp [hpid]⟩)
    · left; exact h

lemma find?_mapSet_self {α : Type} (l : List (Nat × α)) (id : Nat) (v : α) :
    (mapSet l id v).find? (·.1 == id) = some (id, v) := by
  unfold mapSet
  by_cases hany : l.any (·.1 == id)
  · simp only [if_pos hany]
    induction l with
    | nil => simp at hany
    | cons a as ih =>
      by_cases ha : a.1 == id
      · simp [List.find?, ha]
      · simp only [List.map_cons, if_neg ha, List.find?, ha]
        simp only [List.any_cons, ha, Bool.false_or] at hany
        simpa [ha] using ih hany
  · simp only [if_neg hany]
    induction l with
    | nil => simp [List.find?]
    | cons a as ih =>
      have ha : (a.1 == id) = false := by
        cases hb : (a.1 == id)
        · rfl
        · exact absurd (by simp [List.any_cons, hb]) hany
      simp only [List.cons_append, List.find?, ha]
      exact ih fun hmem => hany (by simp [List.any_cons, hmem])

lemma find?_mapSet_ne {α : Type} (l : List (Nat × α)) (id id' : Nat) (v : α)
    (h : id' ≠ id) :
    (mapSet l id v).find? (·.1 == id') = l.find? (·.1 == id') := by
  unfold mapSet
  by_cases hany : l.any (·.1 == id)
  · simp only [if_pos hany]
    clear hany
    induction l with
    | nil => simp
    | cons a as ih =>
      by_cases ha : a.1 == id
      · have ha' : a.1 = id := by simpa using ha
        have : (id == id') = false := by simpa using (fun hc => h hc.symm)
        simp only [List.map_cons, if_pos ha, List.find?, this]
        have : (a.1 == id') = false := by simp [ha', Ne.symm h]
        simp only [this]
        exact ih
      · simp only [List.map_cons, if_neg ha, List.find?]
        cases hb : (a.1 == id')
        · exact ih
        · rfl
  · simp only [if_neg hany]
    induction l with
    | nil =>
      have hne : (id == id') = false := by
        simp [show id ≠ id' from Ne.symm h]
      simp [List.find?, hne]
    | cons a as ih =>
      simp only [List.cons_append, List.find?]
      cases hb : (a.1 == id')
      · exact ih fun hmem => hany (by simp [List.any_cons, hmem])
      · rfl

lemma mapGet_mapSet_self {α : Type} (l : List (Nat × α)) (id : Nat) (v : α) :
    mapGet (mapSet l id v) id = some v := by
  unfold mapGet
  rw [find?_mapSet_self]
  rfl

lemma mapGet_mapSet_ne {α : Type} (l : List (Nat × α)) (id id' : Nat) (v : α)
    (h : id' ≠ id) : mapGet (mapSet l id v) id' = mapGet l id' := by
  unfold mapGet
  rw [find?_mapSet_ne l id id' v h]

lemma mapGet_isSome_of_mem_keys {α : Type} (l : List (Nat × α)) (id : Nat)
    (h : id ∈ l.map (·.1)) : (mapGet l id).isSome := by
  unfold mapGet
  obtain ⟨p, hp, hpe⟩ := List.mem_map.mp h
  have : ∃ q, l.find? (·.1 == id) = some q := by
    have hex : (l.any (·.1 == id)) = true :=
      (any_key_eq_true_iff l id).mpr h
    cases hfind : l.find? (·.1 == id) with
    | none =>
      obtain ⟨q, hq, hqe⟩ := List.any_eq_true.mp hex
      exact absurd hqe (by
        have := List.find?_eq_none.mp hfind q hq
        simpa using this)
    | some q => exact ⟨q, rfl⟩
  obtain ⟨q, hq⟩ := this
  simp [hq]

lemma range_snoc (n : Nat) : List.range n ++ [n] = List.range (n + 1) := by
  simpa using (List.range_succ (n := n)).symm

/-- The drain-loop invariant of the TaskQueue, tying together the
event trace, the queue contents, the processing flag and the status
map. With ids assigned consecutively in enqueue order, the range-shaped
traces express that tasks are started and finished strictly in FIFO
enqueue order. -/
structure QueueInv (s : QueueState) : Prop where
  fin_range : finishedIds s.events = List.range (finishedIds s.events).length
  start_range : startedIds s.events = List.range (startedIds s.events).length
  start_count : (startedIds s.events).length
      = (finishedIds s.events).length + (if s.currentTask.isSome then 1 else 0)
  proc_flag : s.processing = s.currentTask.isSome
  idle_empty : s.currentTask = none → s.queue = []
  cur_id : ∀ t, s.currentTask = some t → t.id = (finishedIds s.events).length
  queue_ids : s.queue.map (·.id)
      = List.range' (startedIds s.events).length s.queue.length
  next_id : s.nextId = (startedIds s.events).length + s.queue.length
  status_keys : s.taskStatus.map (·.1) = List.range s.nextId
  status_processing : ∀ p ∈ s.taskStatus,
      (p.2 = TaskStatus.processing ↔ s.currentTask.map (·.id) = some p.1)

lemma queueInv_init : QueueInv initQueueState := by
  constructor <;> simp [initQueueState, startedIds, finishedIds]

lemma queueInv_enqueueStep (s : QueueState) (d : TaskData) (h : QueueInv s) :
    QueueInv (enqueueStep s d) := by
  have hkeynew : (s.taskStatus.any (·.1 == s.nextId)) = false := by
    cases hb : s.taskStatus.any (·.1 == s.nextId)
    · rfl
    · exfalso
      have := (any_key_eq_true_iff _ _).mp hb
      rw [h.status_keys] at this
      simp at this
  by_cases hp : s.processing = true
  · -- drain loop already running: the enqueue only appends
    have hcur : s.currentTask.isSome = true := by rw [← h.proc_flag]; exact hp
    obtain ⟨t0, ht0⟩ := Option.isSome_iff_exists.mp hcur
    have hstep : enqueueStep s d =
        { s with queue := s.queue ++ [⟨s.nextId, d⟩],
                 taskStatus := mapSet s.taskStatus s.nextId .queued,
                 nextId := s.nextId + 1 } := by
      unfold enqueueStep
      simp [hp]
    rw [hstep]
    refine ⟨h.fin_range, h.start_range, ?_, ?_, ?_, ?_, ?_, ?_, ?_, ?_⟩
    · simpa using h.start_count
    · simpa using h.proc_flag
    · intro hnone
      simp only at hnone
      rw [ht0] at hnone
      cases hnone
    · intro t ht
      exact h.cur_id t ht
    · show (s.queue ++ [(⟨s.nextId, d⟩ : QueueTask)]).map (·.id)
          = List.range' (startedIds s.events).length
              (s.queue ++ [(⟨s.nextId, d⟩ : QueueTask)]).length
      rw [List.map_append, h.queue_ids]
      simp only [List.map_cons, List.map_nil, List.length_append,
        List.length_singleton]
      rw [h.next_id]
      have hr : List.range' (startedIds s.events).length (s.queue.length + 1)
          = List.range' (startedIds s.events).length s.queue.length
            ++ [(startedIds s.events).length + 1 * s.queue.length] :=
        List.range'_concat _ _
      simp only [one_mul] at hr
      rw [hr]
    · show s.nextId + 1 = (startedIds s.events).length
          + (s.queue ++ [(⟨s.nextId, d⟩ : QueueTask)]).length
      rw [h.next_id]
      simp [Nat.add_assoc]
    · show (mapSet s.taskStatus s.nextId .queued).map (·.1)
          = List.range (s.nextId + 1)
      rw [mapSet_keys, hkeynew]
      simp only [Bool.false_eq_true, if_false]
      rw [h.status_keys]
      have := List.range_succ (n := s.nextId)
      simpa using this.symm
    · intro p hp2
      simp only at hp2
      rcases mem_mapSet hp2 with rfl | ⟨hmem, hne⟩
      · constructor
        · intro hq; cases hq
        · intro hq
          exfalso
          simp only at hq
          rw [ht0] at hq
          simp at hq
          have hid := h.cur_id t0 ht0
          have hsc := h.start_count
          rw [ht0] at hsc
          simp at hsc
          rw [hid, h.next_id] at hq
          omega
      · have := h.status_processing p hmem
        simpa using this
  · -- idle: the queue was empty, the new task starts at once
    have hnone : s.currentTask = none := by
      cases hc : s.currentTask with
      | none => rfl
      | some t =>
        exfalso
        apply hp
        rw [h.proc_flag, hc]
        rfl
    have hq0 : s.queue = [] := h.idle_empty hnone
    have hmk : (startedIds s.events).length = (finishedIds s.events).length := by
      have := h.start_count
      rw [hnone] at this
      simpa using this
    have hnext : s.nextId = (startedIds s.events).length := by
      rw [h.next_id, hq0]; simp
    have hstep : enqueueStep s d =
        { queue := [], processing := true,
          currentTask := some ⟨s.nextId, d⟩,
          taskStatus := mapSet (mapSet s.taskStatus s.nextId .queued)
            s.nextId .processing,
          taskResults := s.taskResults,
          events := s.events ++ [.taskStarted s.nextId],
          nextId := s.nextId + 1 } := by
      unfold enqueueStep startNext
      simp [hp, hq0]
    rw [hstep]
    have hstart2 : startedIds (s.events ++ [QueueEvent.taskStarted s.nextId])
        = startedIds s.events ++ [s.nextId] := by
      rw [startedIds_append, startedIds_started]
    have hfin2 : finishedIds (s.events ++ [QueueEvent.taskStarted s.nextId])
        = finishedIds s.events := by
      rw [finishedIds_append, finishedIds_started, List.append_nil]
    refine ⟨?_, ?_, ?_, ?_, ?_, ?_, ?_, ?_, ?_, ?_⟩
    · show finishedIds (s.events ++ _) = List.range (finishedIds (s.events ++ _)).length
      rw [hfin2]
      exact h.fin_range
    · show startedIds (s.events ++ [QueueEvent.taskStarted s.nextId])
          = List.range
              (startedIds (s.events ++ [QueueEvent.taskStarted s.nextId])).length
      rw [hstart2]
      simp only [List.length_append, List.length_singleton]
      rw [hnext]
      conv_lhs => rw [h.start_range]
      simp only [List.length_range]
      exact range_snoc _
    · show (startedIds (s.events ++ _)).length
          = (finishedIds (s.events ++ _)).length + _
      rw [hstart2, hfin2]
      simp [hmk]
    · rfl
    · intro hc; cases hc
    · intro t ht
      simp only at ht
      injection ht with ht
      rw [hfin2, ← hmk, ← hnext, ← ht]
    · simp
    · show s.nextId + 1 = (startedIds (s.events ++ _)).length + ([] : List QueueTask).length
      rw [hstart2]
      simp [hnext]
    · show (mapSet (mapSet s.taskStatus s.nextId .queued) s.nextId .processing).map
          (·.1) = List.range (s.nextId + 1)
      rw [mapSet_keys]
      have hkey2 : ((mapSet s.taskStatus s.nextId .queued).any (·.1 == s.nextId))
          = true := by
        rw [any_key_eq_true_iff, mapSet_keys, hkeynew]
        simp
      rw [hkey2]
      simp only [if_pos]
      rw [mapSet_keys, hkeynew]
      simp only [Bool.false_eq_true, if_false]
      rw [h.status_keys]
      have := List.range_succ (n := s.nextId)
      simpa using this.symm
    · intro p hp2
      simp only at hp2
      rcases mem_mapSet hp2 with rfl | ⟨hmem, hne⟩
      · simp
      · rcases mem_mapSet hmem with rfl | ⟨hmem2, _⟩
        · exact absurd rfl hne
        · have := h.status_processing p hmem2
          rw [hnone] at this
          simp only [Option.map_none', reduceCtorEq, iff_false] at this
          constructor
          · intro hq
            exact absurd hq this
          · intro hq
            exfalso
            simp only at hq
            simp at hq
            exact hne hq.symm

lemma queueInv_afterFinish (s : QueueState) (t : QueueTask) (h : QueueInv s)
    (hcur : s.currentTask = some t) (fev : QueueEvent) (st2 : TaskStatus)
    (hfevf : finishedIds [fev] = [t.id]) (hfevs : startedIds [fev] = [])
    (hst : st2 ≠ TaskStatus.processing) (res : List (Nat × TaskResult)) :
    QueueInv (startNext
      { s with currentTask := none,
               taskStatus := mapSet s.taskStatus t.id st2,
               taskResults := res,
               events := s.events ++ [fev] }) := by
  have hm : (startedIds s.events).length = (finishedIds s.events).length + 1 := by
    have := h.start_count
    rw [hcur] at this
    simpa using this
  have htid : t.id = (finishedIds s.events).length := h.cur_id t hcur
  have hproc : s.processing = true := by rw [h.proc_flag, hcur]; rfl
  have htidlt : t.id < s.nextId := by
    rw [h.next_id]
    omega
  have htidkey : t.id ∈ s.taskStatus.map (·.1) := by
    rw [h.status_keys]
    simpa using htidlt
  have hkeys1 : (mapSet s.taskStatus t.id st2).map (·.1)
      = s.taskStatus.map (·.1) := by
    rw [mapSet_keys, (any_key_eq_true_iff _ _).mpr htidkey]
    simp
  have hfin2 : finishedIds (s.events ++ [fev])
      = List.range ((finishedIds s.events).length + 1) := by
    rw [finishedIds_append, hfevf, htid]
    conv_lhs => rw [h.fin_range]
    simp only [List.length_range]
    exact range_snoc _
  have hstart2 : startedIds (s.events ++ [fev]) = startedIds s.events := by
    rw [startedIds_append, hfevs, List.append_nil]
  cases hq : s.queue with
  | nil =>
    have hstep : startNext
        { queue := ([] : List QueueTask), processing := s.processing,
          currentTask := none,
          taskStatus := mapSet s.taskStatus t.id st2,
          taskResults := res, events := s.events ++ [fev],
          nextId := s.nextId } =
        { queue := [], processing := false, currentTask := none,
          taskStatus := mapSet s.taskStatus t.id st2,
          taskResults := res, events := s.events ++ [fev],
          nextId := s.nextId } := rfl
    rw [hstep]
    refine ⟨?_, ?_, ?_, ?_, ?_, ?_, ?_, ?_, ?_, ?_⟩
    · show finishedIds (s.events ++ [fev])
          = List.range (finishedIds (s.events ++ [fev])).length
      rw [hfin2]
      simp
    · show startedIds (s.events ++ [fev])
          = List.range (startedIds (s.events ++ [fev])).length
      rw [hstart2]
      exact h.start_range
    · show (startedIds (s.events ++ [fev])).length
          = (finishedIds (s.events ++ [fev])).length + _
      rw [hstart2, hfin2]
      simp [hm]
    · rfl
    · intro _; rfl
    · intro t2 ht2; cases ht2
    · show ([] : List QueueTask).map (·.id)
          = List.range' (startedIds (s.events ++ [fev])).length
              ([] : List QueueTask).length
      rfl
    · show s.nextId = (startedIds (s.events ++ [fev])).length
          + ([] : List QueueTask).length
      rw [hstart2, h.next_id, hq]
    · show (mapSet s.taskStatus t.id st2).map (·.1) = List.range s.nextId
      rw [hkeys1, h.status_keys]
    · intro p hp2
      rcases mem_mapSet hp2 with rfl | ⟨hmem, hne⟩
      · simp only
        constructor
        · intro hcontr; exact absurd hcontr hst
        · intro hcontr; cases hcontr
      · have hiff := h.status_processing p hmem
        rw [hcur] at hiff
        constructor
        · intro hq2
          exfalso
          have hh : t.id = p.1 := by simpa using hiff.mp hq2
          exact hne hh.symm
        · intro hcontr; cases hcontr
  | cons t' rest =>
    have hqids := h.queue_ids
    rw [hq] at hqids
    simp only [List.map_cons, List.length_cons] at hqids
    have hrange : List.range' (startedIds s.events).length (rest.length + 1)
        = (startedIds s.events).length
          :: List.range' ((startedIds s.events).length + 1) rest.length := rfl
    rw [hrange] at hqids
    have htid' : t'.id = (startedIds s.events).length := by
      injection hqids
    have hrest : rest.map (·.id)
        = List.range' ((startedIds s.events).length + 1) rest.length := by
      have := hqids
      injection this
    have hstep : startNext
        { queue := t' :: rest, processing := s.processing,
          currentTask := none,
          taskStatus := mapSet s.taskStatus t.id st2,
          taskResults := res, events := s.events ++ [fev],
          nextId := s.nextId } =
        { queue := rest, processing := s.processing, currentTask := some t',
          taskStatus := mapSet (mapSet s.taskStatus t.id st2)
            t'.id .processing,
          taskResults := res,
          events := (s.events ++ [fev]) ++ [.taskStarted t'.id],
          nextId := s.nextId } := rfl
    rw [hstep]
    have hfin3 : finishedIds ((s.events ++ [fev]) ++ [QueueEvent.taskStarted t'.id])
        = List.range ((finishedIds s.events).length + 1) := by
      rw [finishedIds_append, finishedIds_started, List.append_nil, hfin2]
    have hstart3 : startedIds ((s.events ++ [fev]) ++ [QueueEvent.taskStarted t'.id])
        = startedIds s.events ++ [t'.id] := by
      rw [startedIds_append, startedIds_started, hstart2]
    refine ⟨?_, ?_, ?_, ?_, ?_, ?_, ?_, ?_, ?_, ?_⟩
    · show finishedIds _ = List.range (finishedIds _).length
      rw [hfin3]
      simp
    · show startedIds _ = List.range (startedIds _).length
      rw [hstart3]
      simp only [List.length_append, List.length_singleton]
      rw [htid']
      conv_lhs => rw [h.start_range]
      simp only [List.length_range]
      exact range_snoc _
    · show (startedIds _).length = (finishedIds _).length + _
      rw [hstart3, hfin3]
      simp [hm]
    · show s.processing = true
      exact hproc
    · intro hcontr; cases hcontr
    · intro t2 ht2
      injection ht2 with ht2
      rw [hfin3, ← ht2, htid']
      simp [hm]
    · show rest.map (·.id) = List.range' (startedIds _).length rest.length
      rw [hstart3, hrest]
      simp only [List.length_append, List.length_singleton, htid']
    · show s.nextId = (startedIds _).length + rest.length
      rw [hstart3, h.next_id, hq]
      simp only [List.length_append, List.length_cons, List.length_nil]
      omega
    · show (mapSet (mapSet s.taskStatus t.id st2) t'.id .processing).map (·.1)
          = List.range s.nextId
      have htkey2 : t'.id ∈ (mapSet s.taskStatus t.id st2).map (·.1) := by
        rw [hkeys1, h.status_keys]
        simp only [List.mem_range]
        rw [htid', h.next_id, hq]
        simp
      rw [mapSet_keys, (any_key_eq_true_iff _ _).mpr htkey2]
      simp only [if_pos]
      rw [hkeys1, h.status_keys]
    · intro p hp2
      have htne : t.id ≠ t'.id := by
        rw [htid, htid']
        omega
      rcases mem_mapSet hp2 with rfl | ⟨hmem, hne⟩
      · constructor
        · intro _
          rfl
        · intro _
          rfl
      · rcases mem_mapSet hmem with rfl | ⟨hmem2, hne2⟩
        · simp only
          constructor
          · intro hcontr; exact absurd hcontr hst
          · intro hcontr
            exfalso
            have hh : t'.id = t.id := by simpa using hcontr
            exact hne hh.symm
        · have hiff := h.status_processing p hmem2
          rw [hcur] at hiff
          constructor
          · intro hq2
            exfalso
            have hh : t.id = p.1 := by simpa using hiff.mp hq2
            exact hne2 hh.symm
          · intro hq2
            exfalso
            have hh : t'.id = p.1 := by simpa using hq2
            exact hne hh.symm

lemma queueInv_finishStep (s : QueueState) (o : Except String SummaryData)
    (h : QueueInv s) : QueueInv (finishStep s o) := by
  cases hcur : s.currentTask with
  | none =>
    have : finishStep s o = s := by unfold finishStep; rw [hcur]
    rw [this]
    exact h
  | some t =>
    have hm : (startedIds s.events).length = (finishedIds s.events).length + 1 := by
      have := h.start_count
      rw [hcur] at this
      simpa using this
    have htidlt : t.id < s.nextId := by
      have := h.cur_id t hcur
      rw [h.next_id]
      omega
    have htidkey : (mapGet s.taskStatus t.id).isSome := by
      apply mapGet_isSome_of_mem_keys
      rw [h.status_keys]
      simpa using htidlt
    cases o with
    | ok r =>
      have hstep : finishStep s (.ok r) = startNext
          { s with currentTask := none,
                   taskStatus := mapSet s.taskStatus t.id .completed,
                   taskResults := mapSet s.taskResults t.id ⟨true, some r, none⟩,
                   events := s.events
                     ++ [.taskCompleted t.id t.data.chatId t.data.userId r] } := by
        unfold finishStep setTaskResult
        rw [hcur]
        simp [htidkey]
      rw [hstep]
      exact queueInv_afterFinish s t h hcur _ .completed
        (finishedIds_completed t.id _ _ _) (startedIds_completed t.id _ _ _)
        (by simp) _
    | error msg =>
      have hstep : finishStep s (.error msg) = startNext
          { s with currentTask := none,
                   taskStatus := mapSet s.taskStatus t.id .failed,
                   taskResults := mapSet s.taskResults t.id ⟨false, none, some msg⟩,
                   events := s.events
                     ++ [.taskFailed t.id t.data.chatId t.data.userId msg] } := by
        unfold finishStep setTaskResult
        rw [hcur]
        simp [htidkey]
      rw [hstep]
      exact queueInv_afterFinish s t h hcur _ .failed
        (finishedIds_failed t.id _ _ _) (startedIds_failed t.id _ _ _)
        (by simp) _

lemma queueInv_queueStep (s : QueueState) (a : QueueAction) (h : QueueInv s) :
    QueueInv (queueStep s a) := by
  cases a with
  | enqueue d => exact queueInv_enqueueStep s d h
  | finish o => exact queueInv_finishStep s o h

lemma queueInv_foldl (acts : List QueueAction) (s : QueueState) (h : QueueInv s) :
    QueueInv (acts.foldl queueStep s) := by
  induction acts generalizing s with
  | nil => exact h
  | cons a rest ih => exact ih _ (queueInv_queueStep s a h)

lemma queueInv_runQueue (acts : List QueueAction) : QueueInv (runQueue acts) :=
  queueInv_foldl acts initQueueState queueInv_init

lemma processingCount_le_one (s : QueueState) (h : QueueInv s) :
    processingCount s ≤ 1 := by
  unfold processingCount
  cases hc : s.currentTask with
  | none =>
    have hz : s.taskStatus.countP (fun p => p.2 == .processing) = 0 := by
      apply List.countP_eq_zero.mpr
      intro p hp hcontr
      have := (h.status_processing p hp).mp (by simpa using hcontr)
      rw [hc] at this
      cases this
    omega
  | some t =>
    have hb : s.taskStatus.countP (fun p => p.2 == .processing)
        ≤ s.taskStatus.countP (fun p => p.1 == t.id) := by
      apply List.countP_mono_left
      intro p hp hcontr
      have := (h.status_processing p hp).mp (by simpa using hcontr)
      rw [hc] at this
      have : t.id = p.1 := by simpa using this
      simp [this]
    have hcount : s.taskStatus.countP (fun p => p.1 == t.id)
        = (s.taskStatus.map (·.1)).count t.id := by
      rw [List.count, List.countP_map]
      rfl
    rw [hcount, h.status_keys] at hb
    exact hb.trans (List.nodup_iff_count_le_one.mp (List.nodup_range _) t.id)

/-- C1: for any sequence of event-loop actions, at most one job is
recorded as processing at any instant; jobs are started in FIFO enqueue
order and their completion or failure events fire in that same order
(both traces are the consecutive ids 0,1,2,... assigned in enqueue
order, the finished trace never running ahead of the enqueues); and an
enqueue arriving while the drain loop runs only appends the new queued
task, leaving the in-flight job and the single-worker flag
untouched. -/
theorem taskQueue_fifo_single_worker (acts : List QueueAction) :
    processingCount (runQueue acts) ≤ 1
    ∧ startedIds (runQueue acts).events
        = List.range (startedIds (runQueue acts).events).length
    ∧ finishedIds (runQueue acts).events
        = List.range (finishedIds (runQueue acts).events).length
    ∧ (finishedIds (runQueue acts).events).length
        ≤ (startedIds (runQueue acts).events).length
    ∧ (startedIds (runQueue acts).events).length ≤ (runQueue acts).nextId
    ∧ (∀ d, (runQueue acts).processing = true →
        (queueStep (runQueue acts) (.enqueue d)).currentTask
            = (runQueue acts).currentTask
        ∧ (queueStep (runQueue acts) (.enqueue d)).queue
            = (runQueue acts).queue ++ [⟨(runQueue acts).nextId, d⟩]
        ∧ (queueStep (runQueue acts) (.enqueue d)).processing = true) := by
  have h := queueInv_runQueue acts
  refine ⟨processingCount_le_one _ h, h.start_range, h.fin_range, ?_, ?_, ?_⟩
  · have := h.start_count
    omega
  · have := h.next_id
    omega
  · intro d hp
    have hstep : queueStep (runQueue acts) (.enqueue d) =
        { runQueue acts with
            queue := (runQueue acts).queue ++ [⟨(runQueue acts).nextId, d⟩],
            taskStatus := mapSet (runQueue acts).taskStatus
              (runQueue acts).nextId .queued,
            nextId := (runQueue acts).nextId + 1 } := by
      show enqueueStep _ _ = _
      unfold enqueueStep
      simp [hp]
    rw [hstep]
    exact ⟨rfl, rfl, hp⟩

/-- Witness for C1: after two enqueues the first job is in flight, at
most one job is processing, and a third enqueue performed while the
drain loop runs only appends to the queue. -/
theorem taskQueue_fifo_single_worker_witness :
    processingCount (runQueue
      [.enqueue ⟨1, 2, 3⟩, .enqueue ⟨4, 5, 6⟩]) ≤ 1
    ∧ (queueStep (runQueue [.enqueue ⟨1, 2, 3⟩, .enqueue ⟨4, 5, 6⟩])
          (.enqueue ⟨7, 8, 9⟩)).queue
        = (runQueue [.enqueue ⟨1, 2, 3⟩, .enqueue ⟨4, 5, 6⟩]).queue
            ++ [⟨2, ⟨7, 8, 9⟩⟩]
    ∧ (queueStep (runQueue [.enqueue ⟨1, 2, 3⟩, .enqueue ⟨4, 5, 6⟩])
          (.enqueue ⟨7, 8, 9⟩)).currentTask
        = (runQueue [.enqueue ⟨1, 2, 3⟩, .enqueue ⟨4, 5, 6⟩]).currentTask := by
  have h := taskQueue_fifo_single_worker [.enqueue ⟨1, 2, 3⟩, .enqueue ⟨4, 5, 6⟩]
  have h6 := h.2.2.2.2.2 ⟨7, 8, 9⟩ rfl
  exact ⟨h.1, h6.2.1, h6.1⟩

/-- C7: when the provider call of the in-flight job raises, the
exception is caught, stored as the job's failure result, the job is
marked failed, the taskFailed event carrying the job id, conversation
id, requester id and the error message is emitted, and the drain loop
moves on: with the queue empty it parks, otherwise it immediately
starts the next queued job. -/
theorem taskQueue_failure_isolated (s : QueueState) (t : QueueTask)
    (msg : String) (hinv : QueueInv s) (hcur : s.currentTask = some t) :
    mapGet (finishStep s (.error msg)).taskResults t.id
        = some ⟨false, none, some msg⟩
    ∧ mapGet (finishStep s (.error msg)).taskStatus t.id = some .failed
    ∧ (finishStep s (.error msg)).events
        = s.events ++ [.taskFailed t.id t.data.chatId t.data.userId msg]
          ++ (match s.queue with
              | [] => []
              | t' :: _ => [.taskStarted t'.id])
    ∧ (s.queue = [] → (finishStep s (.error msg)).processing = false
        ∧ (finishStep s (.error msg)).currentTask = none)
    ∧ (∀ t' rest, s.queue = t' :: rest →
        (finishStep s (.error msg)).processing = true
        ∧ (finishStep s (.error msg)).currentTask = some t'
        ∧ (finishStep s (.error msg)).queue = rest
        ∧ mapGet (finishStep s (.error msg)).taskStatus t'.id
            = some .processing) := by
  have hm : (startedIds s.events).length = (finishedIds s.events).length + 1 := by
    have := hinv.start_count
    rw [hcur] at this
    simpa using this
  have htid : t.id = (finishedIds s.events).length := hinv.cur_id t hcur
  have hproc : s.processing = true := by rw [hinv.proc_flag, hcur]; rfl
  have htidlt : t.id < s.nextId := by
    rw [hinv.next_id]
    omega
  have htidkey : (mapGet s.taskStatus t.id).isSome := by
    apply mapGet_isSome_of_mem_keys
    rw [hinv.status_keys]
    simpa using htidlt
  have hstep : finishStep s (.error msg) = startNext
      { s with currentTask := none,
               taskStatus := mapSet s.taskStatus t.id .failed,
               taskResults := mapSet s.taskResults t.id ⟨false, none, some msg⟩,
               events := s.events
                 ++ [.taskFailed t.id t.data.chatId t.data.userId msg] } := by
    unfold finishStep setTaskResult
    rw [hcur]
    simp [htidkey]
  cases hq : s.queue with
  | nil =>
    have hrun : finishStep s (.error msg) =
        { queue := [], processing := false, currentTask := none,
          taskStatus := mapSet s.taskStatus t.id .failed,
          taskResults := mapSet s.taskResults t.id ⟨false, none, some msg⟩,
          events := s.events
            ++ [.taskFailed t.id t.data.chatId t.data.userId msg],
          nextId := s.nextId } := by
      rw [hstep]
      unfold startNext
      simp [hq]
    rw [hrun]
    refine ⟨mapGet_mapSet_self _ _ _, mapGet_mapSet_self _ _ _, ?_, ?_, ?_⟩
    · simp
    · intro _
      exact ⟨rfl, rfl⟩
    · intro t' rest hcontr
      exact absurd hcontr (by simp)
  | cons t' rest =>
    have htne : t'.id ≠ t.id := by
      have hqids := hinv.queue_ids
      rw [hq] at hqids
      simp only [List.map_cons, List.length_cons] at hqids
      have : t'.id = (startedIds s.events).length := by injection hqids
      rw [this, htid]
      omega
    have hrun : finishStep s (.error msg) =
        { queue := rest, processing := s.processing, currentTask := some t',
          taskStatus := mapSet (mapSet s.taskStatus t.id .failed)
            t'.id .processing,
          taskResults := mapSet s.taskResults t.id ⟨false, none, some msg⟩,
          events := (s.events
            ++ [.taskFailed t.id t.data.chatId t.data.userId msg])
            ++ [.taskStarted t'.id],
          nextId := s.nextId } := by
      rw [hstep]
      unfold startNext
      simp [hq]
    rw [hrun]
    refine ⟨mapGet_mapSet_self _ _ _, ?_, ?_, ?_, ?_⟩
    · show mapGet (mapSet (mapSet s.taskStatus t.id TaskStatus.failed)
          t'.id TaskStatus.processing) t.id = some TaskStatus.failed
      rw [mapGet_mapSet_ne _ _ _ _ (fun hh => htne hh.symm)]
      exact mapGet_mapSet_self _ _ _
    · simp
    · intro hcontr
      exact absurd hcontr (by simp)
    · intro t2 rest2 heq
      injection heq with h1 h2
      subst h1
      subst h2
      exact ⟨hproc, rfl, rfl, mapGet_mapSet_self _ _ _⟩

/-- Witness for C7: a single enqueued job whose provider call throws is
marked failed with its error recorded, the failure event is emitted for
chat 42 and user 5, and the drain loop parks on the empty queue. -/
theorem taskQueue_failure_isolated_witness :
    mapGet (finishStep (runQueue [.enqueue ⟨42, 5, 100⟩])
        (.error "boom")).taskResults 0
      = some ⟨false, none, some "boom"⟩
    ∧ mapGet (finishStep (runQueue [.enqueue ⟨42, 5, 100⟩])
        (.error "boom")).taskStatus 0 = some .failed
    ∧ (finishStep (runQueue [.enqueue ⟨42, 5, 100⟩])
        (.error "boom")).processing = false := by
  have h := taskQueue_failure_isolated (runQueue [.enqueue ⟨42, 5, 100⟩])
    ⟨0, ⟨42, 5, 100⟩⟩ "boom" (queueInv_runQueue _) rfl
  exact ⟨h.1, h.2.1, (h.2.2.2.1 rfl).1⟩

/-! ## src/services/taskQueueHandler.js : splitTextIntoSegments
(lines 158-199)

The JavaScript float comparison lastIndex > maxLength * 0.7 is modelled
with the exact rational seven tenths, written 10 * i > 7 * M over the
naturals; the double rounding of 0.7 can shift the threshold by at most
one when 7 * M is a multiple of 10, which affects none of the claimed
bounds. -/

/-- The break strings tried in priority order: blank line, newline,
CJK sentence end plus newline, CJK sentence end, space. -/
def breakStrings : List (List Char) :=
  [['\n', '\n'], ['\n'], ['。', '\n'], ['。'], [' ']]

/-- String.prototype.lastIndexOf: the greatest index at which the
pattern occurs, if any. -/
def lastIndexOf (s pat : List Char) : Option Nat :=
  ((List.range (s.length + 1)).filter fun i => pat.isPrefixOf (s.drop i)).getLast?

/-- The backward scan over the prioritized break points: the first
break string whose last occurrence lies past seven tenths of the
window yields the cut length (occurrence index plus break length). -/
def findBreak : List (List Char) → List Char → Nat → Option Nat
  | [], _, _ => none
  | bp :: rest, window, maxLength =>
    match lastIndexOf window bp with
    | some i =>
      if 10 * i > 7 * maxLength then some (i + bp.length)
      else findBreak rest window maxLength
    | none => findBreak rest window maxLength

/-- The cut position for one iteration: the searchText window is the
next maxLength characters, and bestBreakPoint defaults to the full
window when no prioritized break lies past seven tenths of it. -/
def chooseCut (rem : List Char) (M : Nat) : Nat :=
  match findBreak breakStrings (rem.take M) M with
  | some b => b
  | none => M

/-- The while loop of splitTextIntoSegments, phrased over the remaining
text (currentPos maps to the dropped prefix); the fuel argument bounds
the iteration count by the text length, each iteration consuming at
least one character. -/
def splitLoop (M : Nat) : Nat → List Char → List (List Char)
  | 0, _ => []
  | _, [] => []
  | fuel + 1, rem =>
    if rem.length ≤ M then [rem]
    else rem.take (chooseCut rem M) :: splitLoop M fuel (rem.drop (chooseCut rem M))

/-- splitTextIntoSegments from src/services/taskQueueHandler.js. -/
def splitTextIntoSegments (text : List Char) (M : Nat) : List (List Char) :=
  if text.length ≤ M then [text] else splitLoop M text.length text

/-- A break string occurs in the window later than seven tenths of the
segment limit. -/
def hasLateBreak (M : Nat) (window : List Char) : Prop :=
  ∃ bp ∈ breakStrings, ∃ i ∈ List.range (window.length + 1),
    bp.isPrefixOf (window.drop i) = true ∧ 10 * i > 7 * M

/-- The segment ends with one of the break strings. -/
def endsWithBreak (seg : List Char) : Prop :=
  ∃ bp ∈ breakStrings, seg.drop (seg.length - bp.length) = bp

/-- Well-formedness of a segment list: every segment fits the limit,
and every non-final segment that had a late break available in its
window ends on a break and is longer than seven tenths of the limit. -/
def SegsOk (M : Nat) : List (List Char) → Prop
  | [] => True
  | s :: rest =>
      s.length ≤ M
      ∧ (rest ≠ [] → hasLateBreak M ((s ++ rest.flatten).take M) →
          endsWithBreak s ∧ 10 * s.length > 7 * M)
      ∧ SegsOk M rest

lemma take_of_isPrefixOf : ∀ {pat s : List Char},
    pat.isPrefixOf s = true → s.take pat.length = pat := by
  intro pat
  induction pat with
  | nil => intro s _; rfl
  | cons c cs ih =>
    intro s h
    cases s with
    | nil => cases h
    | cons d ds =>
      simp only [List.isPrefixOf, Bool.and_eq_true, beq_iff_eq] at h
      simp only [List.length_cons, List.take_succ_cons]
      rw [h.1, ih h.2]

lemma length_le_of_isPrefixOf : ∀ {pat s : List Char},
    pat.isPrefixOf s = true → pat.length ≤ s.length := by
  intro pat s h
  have := take_of_isPrefixOf h
  calc pat.length = (s.take pat.length).length := by rw [this]
    _ ≤ s.length := by simp

lemma getLast?_mem_nat : ∀ {l : List Nat} {m : Nat},
    l.getLast? = some m → m ∈ l := by
  intro l
  induction l with
  | nil => intro m h; cases h
  | cons a as ih =>
    intro m h
    cases as with
    | nil =>
      simp only [List.getLast?_singleton, Option.some.injEq] at h
      simp [h]
    | cons b bs =>
      rw [List.getLast?_cons_cons] at h
      exact List.mem_cons_of_mem a (ih h)

lemma getLast?_is_max {l : List Nat} (hl : List.Pairwise (· < ·) l) :
    ∀ {x : Nat}, x ∈ l → ∃ m, l.getLast? = some m ∧ x ≤ m := by
  induction l with
  | nil => intro x hx; cases hx
  | cons a as ih =>
    intro x hx
    cases as with
    | nil =>
      simp only [List.mem_singleton] at hx
      exact ⟨a, by simp [List.getLast?_singleton], le_of_eq hx⟩
    | cons b bs =>
      rcases List.mem_cons.mp hx with rfl | hx2
      · obtain ⟨m, hm, hbm⟩ := ih hl.of_cons (List.mem_cons_self b bs)
        refine ⟨m, by rw [List.getLast?_cons_cons]; exact hm, ?_⟩
        have hab : x < b := List.rel_of_pairwise_cons hl (List.mem_cons_self b bs)
        omega
      · obtain ⟨m, hm, hxm⟩ := ih hl.of_cons hx2
        exact ⟨m, by rw [List.getLast?_cons_cons]; exact hm, hxm⟩

lemma lastIndexOf_some {s pat : List Char} {i : Nat}
    (h : lastIndexOf s pat = some i) :
    i ≤ s.length ∧ pat.isPrefixOf (s.drop i) = true
      ∧ ∀ j ≤ s.length, pat.isPrefixOf (s.drop j) = true → j ≤ i := by
  have hmem := getLast?_mem_nat h
  rw [List.mem_filter] at hmem
  have hrange := List.mem_range.mp hmem.1
  refine ⟨by omega, hmem.2, ?_⟩
  intro j hj hpre
  have hjmem : j ∈ (List.range (s.length + 1)).filter
      fun i => pat.isPrefixOf (s.drop i) := by
    rw [List.mem_filter]
    exact ⟨List.mem_range.mpr (by omega), hpre⟩
  have hpw : List.Pairwise (· < ·)
      ((List.range (s.length + 1)).filter
        fun i => pat.isPrefixOf (s.drop i)) :=
    List.Pairwise.filter _ (List.pairwise_lt_range _)
  obtain ⟨m, hm, hjm⟩ := getLast?_is_max hpw hjmem
  rw [lastIndexOf] at h
  rw [h] at hm
  injection hm with hm
  omega

lemma lastIndexOf_none {s pat : List Char} (h : lastIndexOf s pat = none) :
    ∀ j ≤ s.length, pat.isPrefixOf (s.drop j) = false := by
  intro j hj
  cases hb : pat.isPrefixOf (s.drop j)
  · rfl
  · exfalso
    have hjmem : j ∈ (List.range (s.length + 1)).filter
        fun i => pat.isPrefixOf (s.drop i) := by
      rw [List.mem_filter]
      exact ⟨List.mem_range.mpr (by omega), hb⟩
    obtain ⟨m, hm, _⟩ := getLast?_is_max
      (List.Pairwise.filter _ (List.pairwise_lt_range _)) hjmem
    rw [lastIndexOf] at h
    rw [h] at hm
    cases hm

lemma findBreak_some {bps : List (List Char)} {window : List Char}
    {M k : Nat} (h : findBreak bps window M = some k) :
    ∃ bp ∈ bps, ∃ i, i ≤ window.length
      ∧ bp.isPrefixOf (window.drop i) = true
      ∧ 10 * i > 7 * M ∧ k = i + bp.length := by
  induction bps with
  | nil => cases h
  | cons bp rest ih =>
    unfold findBreak at h
    cases hl : lastIndexOf window bp with
    | some i =>
      rw [hl] at h
      dsimp only at h
      by_cases hcond : 10 * i > 7 * M
      · rw [if_pos hcond] at h
        injection h with h
        obtain ⟨hle, hpre, _⟩ := lastIndexOf_some hl
        exact ⟨bp, List.mem_cons_self bp rest, i, hle, hpre, hcond, h.symm⟩
      · rw [if_neg hcond] at h
        obtain ⟨bp2, hbp2, rest2⟩ := ih h
        exact ⟨bp2, List.mem_cons_of_mem bp hbp2, rest2⟩
    | none =>
      rw [hl] at h
      dsimp only at h
      obtain ⟨bp2, hbp2, rest2⟩ := ih h
      exact ⟨bp2, List.mem_cons_of_mem bp hbp2, rest2⟩

lemma findBreak_none {bps : List (List Char)} {window : List Char} {M : Nat}
    (h : findBreak bps window M = none) :
    ∀ bp ∈ bps, ∀ i ≤ window.length,
      bp.isPrefixOf (window.drop i) = true → 10 * i ≤ 7 * M := by
  induction bps with
  | nil => intro bp hbp; cases hbp
  | cons bp0 rest ih =>
    unfold findBreak at h
    intro bp hbp i hi hpre
    cases hl : lastIndexOf window bp0 with
    | some i0 =>
      rw [hl] at h
      dsimp only at h
      by_cases hcond : 10 * i0 > 7 * M
      · rw [if_pos hcond] at h; cases h
      · rw [if_neg hcond] at h
        rcases List.mem_cons.mp hbp with rfl | hbp2
        · obtain ⟨_, _, hmax⟩ := lastIndexOf_some hl
          have := hmax i hi hpre
          omega
        · exact ih h bp hbp2 i hi hpre
    | none =>
      rw [hl] at h
      dsimp only at h
      rcases List.mem_cons.mp hbp with rfl | hbp2
      · have := lastIndexOf_none hl i hi
        rw [hpre] at this
        cases this
      · exact ih h bp hbp2 i hi hpre

lemma segsOk_length {M : Nat} : ∀ {segs : List (List Char)},
    SegsOk M segs → ∀ seg ∈ segs, seg.length ≤ M := by
  intro segs
  induction segs with
  | nil => intro _ seg hseg; cases hseg
  | cons s rest ih =>
    intro h seg hseg
    rcases List.mem_cons.mp hseg with rfl | hseg2
    · exact h.1
    · exact ih h.2.2 seg hseg2

lemma chooseCut_bounds (rem : List Char) (M : Nat) (hM : 0 < M)
    (hlong : M < rem.length) : 1 ≤ chooseCut rem M ∧ chooseCut rem M ≤ M := by
  have hwlen : (rem.take M).length = M := by
    simp only [List.length_take]
    omega
  unfold chooseCut
  cases hf : findBreak breakStrings (rem.take M) M with
  | some b =>
    obtain ⟨bp, _, i, hile, hpre, hgt, hb⟩ := findBreak_some hf
    have hlen2 := length_le_of_isPrefixOf hpre
    rw [List.length_drop, hwlen] at hlen2
    constructor
    · dsimp only
      omega
    · dsimp only
      omega
  | none => exact ⟨hM, le_rfl⟩

lemma splitLoop_spec (M : Nat) (hM : 0 < M) :
    ∀ fuel rem, rem.length ≤ fuel →
      (splitLoop M fuel rem).flatten = rem ∧ SegsOk M (splitLoop M fuel rem) := by
  intro fuel
  induction fuel with
  | zero =>
    intro rem hlen
    have : rem = [] := List.eq_nil_of_length_eq_zero (by omega)
    subst this
    exact ⟨rfl, trivial⟩
  | succ fuel ih =>
    intro rem hlen
    cases rem with
    | nil => exact ⟨rfl, trivial⟩
    | cons c cs =>
      by_cases hshort : (c :: cs).length ≤ M
      · have hstep : splitLoop M (fuel + 1) (c :: cs) = [c :: cs] := by
          conv_lhs => rw [splitLoop.eq_def]
          dsimp only
          rw [if_pos hshort]
        rw [hstep]
        exact ⟨by simp, hshort, fun hne => absurd rfl hne, trivial⟩
      · have hlong : M < (c :: cs).length := by omega
        have hwlen : ((c :: cs).take M).length = M := by
          simp only [List.length_take]
          omega
        obtain ⟨hk1, hkM⟩ := chooseCut_bounds (c :: cs) M hM hlong
        have hstep : splitLoop M (fuel + 1) (c :: cs)
            = (c :: cs).take (chooseCut (c :: cs) M)
              :: splitLoop M fuel ((c :: cs).drop (chooseCut (c :: cs) M)) := by
          conv_lhs => rw [splitLoop.eq_def]
          dsimp only
          rw [if_neg hshort]
        have hdrop_len : ((c :: cs).drop (chooseCut (c :: cs) M)).length ≤ fuel := by
          simp only [List.length_drop, List.length_cons]
          simp only [List.length_cons] at hlen
          omega
        obtain ⟨ihflat, ihok⟩ := ih _ hdrop_len
        rw [hstep]
        refine ⟨?_, ?_, ?_, ihok⟩
        · simp only [List.flatten_cons, ihflat]
          exact List.take_append_drop _ _
        · simp only [List.length_take]
          omega
        · intro _ hlate
          have hwin : ((c :: cs).take (chooseCut (c :: cs) M)
              ++ (splitLoop M fuel ((c :: cs).drop (chooseCut (c :: cs) M))).flatten).take M
              = (c :: cs).take M := by
            rw [ihflat, List.take_append_drop]
          rw [hwin] at hlate
          have hseglen : ((c :: cs).take (chooseCut (c :: cs) M)).length
              = chooseCut (c :: cs) M := by
            simp only [List.length_take]
            omega
          cases hf : findBreak breakStrings ((c :: cs).take M) M with
          | some b =>
            obtain ⟨bp, hbpmem, i, hile, hpre, hgt, hb⟩ := findBreak_some hf
            have hkb : chooseCut (c :: cs) M = b := by
              unfold chooseCut
              rw [hf]
            have hlen2 := length_le_of_isPrefixOf hpre
            rw [List.length_drop, hwlen] at hlen2
            rw [hwlen] at hile
            constructor
            · refine ⟨bp, hbpmem, ?_⟩
              rw [hseglen, hkb, hb]
              have htk : (c :: cs).take (i + bp.length)
                  = ((c :: cs).take M).take (i + bp.length) := by
                rw [List.take_take]
                congr 1
                omega
              rw [htk]
              have hsub : i + bp.length - bp.length = i := by omega
              rw [hsub, List.drop_take]
              have hsub2 : i + bp.length - i = bp.length := by omega
              rw [hsub2]
              exact take_of_isPrefixOf hpre
            · rw [hseglen, hkb, hb]
              omega
          | none =>
            exfalso
            obtain ⟨bp, hbpmem, i, hirange, hpre, hgt⟩ := hlate
            rw [List.mem_range] at hirange
            have := findBreak_none hf bp hbpmem i (by omega) hpre
            omega

/-- C8: splitting a body longer than the limit M yields segments whose
concatenation is the original text, each segment at most M characters,
and every non-final segment whose window offered a break character past
seven tenths of M is cut at such a break, making it longer than seven
tenths of M. -/
theorem splitTextIntoSegments_spec (text : List Char) (M : Nat)
    (hM : 0 < M) (hL : M < text.length) :
    (splitTextIntoSegments text M).flatten = text
    ∧ (∀ seg ∈ splitTextIntoSegments text M, seg.length ≤ M)
    ∧ SegsOk M (splitTextIntoSegments text M) := by
  have hspec := splitLoop_spec M hM text.length text le_rfl
  have heq : splitTextIntoSegments text M = splitLoop M text.length text := by
    unfold splitTextIntoSegments
    rw [if_neg (by omega)]
  rw [heq]
  exact ⟨hspec.1, segsOk_length hspec.2, hspec.2⟩

/-- Witness for C8 at a concrete body: fifteen characters split at
limit ten break at the space after the eighth character. -/
theorem splitTextIntoSegments_spec_witness :
    (splitTextIntoSegments ("abcdefgh ij klm").data 10).flatten
        = ("abcdefgh ij klm").data
    ∧ SegsOk 10 (splitTextIntoSegments ("abcdefgh ij klm").data 10)
    ∧ splitTextIntoSegments ("abcdefgh ij klm").data 10
        = [("abcdefgh ").data, ("ij klm").data] := by
  have h := splitTextIntoSegments_spec ("abcdefgh ij klm").data 10
    (by decide) (by decide)
  exact ⟨h.1, h.2.2, by decide⟩

/-! ## The response recovery pipeline

src/services/aiService.js lines 230-253 (the three parse tiers) and
src/services/ai/responseHandler.js (cleanJsonContent,
repairTruncatedJson, extractSummaryFromFailedJson).

JSON.parse is a platform builtin; it is modelled by a standard strict
ECMA-404 recursive-descent parser over List Char (string escapes
included, raw control characters inside strings rejected, no trailing
garbage). Numeric literal values are never inspected by the pipeline,
so numbers are kept as their raw text. -/

/-- A JavaScript JSON value. -/
inductive JsonVal where
  | null
  | bool (b : Bool)
  | num (raw : String)
  | str (s : String)
  | arr (elems : List JsonVal)
  | obj (members : List (String × JsonVal))

/-- The double quote character. -/
def quoteChar : Char := '"'

/-- JSON / JavaScript whitespace (the ASCII core used by the texts at
hand). -/
def jsonWsB (c : Char) : Bool :=
  c == ' ' || c == '\t' || c == '\n' || c == '\r'

/-- Decimal digit test. -/
def isDigitB (c : Char) : Bool := '0' ≤ c && c ≤ '9'

/-- Hexadecimal digit test. -/
def isHexB (c : Char) : Bool :=
  isDigitB c || ('a' ≤ c && c ≤ 'f') || ('A' ≤ c && c ≤ 'F')

/-- Hexadecimal digit value. -/
def hexVal (c : Char) : Nat :=
  if isDigitB c then c.toNat - '0'.toNat
  else if 'a' ≤ c && c ≤ 'f' then c.toNat - 'a'.toNat + 10
  else c.toNat - 'A'.toNat + 10

/-- Body of a JSON string after the opening quote: fueled scan
producing the decoded content and the input after the closing quote. -/
def parseStringRest : Nat → List Char → Option (List Char × List Char)
  | 0, _ => none
  | fuel + 1, s =>
    match s with
    | [] => none
    | c :: rest =>
      if c = quoteChar then some ([], rest)
      else if c = '\\' then
        match rest with
        | [] => none
        | e :: rest2 =>
          if e = quoteChar then
            (parseStringRest fuel rest2).map fun p => (quoteChar :: p.1, p.2)
          else if e = '\\' then
            (parseStringRest fuel rest2).map fun p => ('\\' :: p.1, p.2)
          else if e = '/' then
            (parseStringRest fuel rest2).map fun p => ('/' :: p.1, p.2)
          else if e = 'b' then
            (parseStringRest fuel rest2).map fun p => (Char.ofNat 8 :: p.1, p.2)
          else if e = 'f' then
            (parseStringRest fuel rest2).map fun p => (Char.ofNat 12 :: p.1, p.2)
          else if e = 'n' then
            (parseStringRest fuel rest2).map fun p => ('\n' :: p.1, p.2)
          else if e = 'r' then
            (parseStringRest fuel rest2).map fun p => ('\r' :: p.1, p.2)
          else if e = 't' then
            (parseStringRest fuel rest2).map fun p => ('\t' :: p.1, p.2)
          else if e = 'u' then
            match rest2 with
            | h1 :: h2 :: h3 :: h4 :: rest3 =>
              if isHexB h1 && isHexB h2 && isHexB h3 && isHexB h4 then
                (parseStringRest fuel rest3).map fun p =>
                  (Char.ofNat (((hexVal h1 * 16 + hexVal h2) * 16 + hexVal h3) * 16
                    + hexVal h4) :: p.1, p.2)
              else none
            | _ => none
          else none
      else if c.toNat < 32 then none
      else (parseStringRest fuel rest).map fun p => (c :: p.1, p.2)

/-- A JSON numeric literal: raw text and remaining input. -/
def parseNumberLit (s : List Char) : Option (List Char × List Char) :=
  let (neg, s1) :=
    match s with
    | '-' :: rest => (['-'], rest)
    | _ => (([] : List Char), s)
  match s1 with
  | [] => none
  | d :: _ =>
    if ¬ (isDigitB d = true) then none
    else
      let intPart :=
        if d = '0' then ['0'] else s1.takeWhile isDigitB
      let s2 := s1.drop intPart.length
      let fracRes : Option (List Char × List Char) :=
        match s2 with
        | '.' :: rest =>
          let ds := rest.takeWhile isDigitB
          if ds = [] then none else some ('.' :: ds, rest.drop ds.length)
        | _ => some ([], s2)
      match fracRes with
      | none => none
      | some (fracPart, s3) =>
        let expRes : Option (List Char × List Char) :=
          match s3 with
          | e :: rest =>
            if e = 'e' ∨ e = 'E' then
              let (sign, rest2) :=
                match rest with
                | '+' :: r => (['+'], r)
                | '-' :: r => (['-'], r)
                | _ => (([] : List Char), rest)
              let ds := rest2.takeWhile isDigitB
              if ds = [] then none
              else some (e :: sign ++ ds, rest2.drop ds.length)
            else some ([], s3)
          | [] => some ([], s3)
        match expRes with
        | none => none
        | some (expPart, s4) => some (neg ++ intPart ++ fracPart ++ expPart, s4)

mutual

/-- One JSON value (whitespace-led). -/
def parseVal : Nat → List Char → Option (JsonVal × List Char)
  | 0, _ => none
  | fuel + 1, s =>
    match s.dropWhile jsonWsB with
    | [] => none
    | c :: rest =>
      if c = 'n' then
        match rest with
        | 'u' :: 'l' :: 'l' :: rest2 => some (.null, rest2)
        | _ => none
      else if c = 't' then
        match rest with
        | 'r' :: 'u' :: 'e' :: rest2 => some (.bool true, rest2)
        | _ => none
      else if c = 'f' then
        match rest with
        | 'a' :: 'l' :: 's' :: 'e' :: rest2 => some (.bool false, rest2)
        | _ => none
      else if c = quoteChar then
        (parseStringRest (rest.length + 1) rest).map fun p => (.str ⟨p.1⟩, p.2)
      else if c = '[' then
        match (rest.dropWhile jsonWsB) with
        | ']' :: rest2 => some (.arr [], rest2)
        | _ =>
          (parseElems fuel rest).map fun p => (.arr p.1, p.2)
      else if c = lbrace then
        match (rest.dropWhile jsonWsB) with
        | d :: rest2 =>
          if d = rbrace then some (.obj [], rest2)
          else (parseMembers fuel rest).map fun p => (.obj p.1, p.2)
        | [] => none
      else
        (parseNumberLit (c :: rest)).map fun p => (.num ⟨p.1⟩, p.2)

/-- Comma-separated array elements up to the closing bracket. -/
def parseElems : Nat → List Char → Option (List JsonVal × List Char)
  | 0, _ => none
  | fuel + 1, s =>
    match parseVal fuel s with
    | none => none
    | some (v, rest) =>
      match rest.dropWhile jsonWsB with
      | ']' :: rest2 => some ([v], rest2)
      | ',' :: rest2 =>
        (parseElems fuel rest2).map fun p => (v :: p.1, p.2)
      | _ => none

/-- Comma-separated object members up to the closing brace. -/
def parseMembers : Nat → List Char → Option (List (String × JsonVal) × List Char)
  | 0, _ => none
  | fuel + 1, s =>
    match s.dropWhile jsonWsB with
    | c :: rest =>
      if c = quoteChar then
        match parseStringRest (rest.length + 1) rest with
        | none => none
        | some (key, rest2) =>
          match rest2.dropWhile jsonWsB with
          | ':' :: rest3 =>
            match parseVal fuel rest3 with
            | none => none
            | some (v, rest4) =>
              match rest4.dropWhile jsonWsB with
              | d :: rest5 =>
                if d = rbrace then some ([(⟨key⟩, v)], rest5)
                else if d = ',' then
                  (parseMembers fuel rest5).map fun p => ((⟨key⟩, v) :: p.1, p.2)
                else none
              | [] => none
          | _ => none
      else none
    | [] => none

end

/-- JSON.parse: parse one value and require only whitespace after. -/
def jsonParse (s : String) : Option JsonVal :=
  match parseVal (2 * s.data.length + 4) s.data with
  | some (v, rest) => if rest.dropWhile jsonWsB = [] then some v else none
  | none => none

/-- String.prototype.trim (ASCII whitespace). -/
def strTrimL (l : List Char) : List Char :=
  (l.dropWhile jsonWsB).reverse.dropWhile jsonWsB |>.reverse

/-- A generic left-to-right global regex replace: f returns the
replacement text and the input after the match when a match starts at
the current position; every match consumes at least one character, so
the input length bounds the scan. -/
def replaceScan (f : List Char → Option (List Char × List Char)) :
    Nat → List Char → List Char
  | 0, s => s
  | _, [] => []
  | fuel + 1, c :: rest =>
    match f (c :: rest) with
    | some (out, rest2) => out ++ replaceScan f fuel rest2
    | none => c :: replaceScan f fuel rest

/-- Matcher for the trailing-comma pattern: a comma, optional
whitespace, then a closing brace or bracket; the comma is dropped. -/
def commaCloseMatch (s : List Char) : Option (List Char × List Char) :=
  match s with
  | ',' :: rest =>
    let ws := rest.takeWhile jsonWsB
    match rest.drop ws.length with
    | c :: rest3 =>
      if c = rbrace ∨ c = ']' then some (ws ++ [c], rest3) else none
    | [] => none
  | _ => none

/-- Matcher for an opening brace or bracket followed by whitespace and
a comma; the whitespace and comma are dropped. -/
def openCommaMatch (opener : Char) (s : List Char) : Option (List Char × List Char) :=
  match s with
  | c :: rest =>
    if c = opener then
      let ws := rest.takeWhile jsonWsB
      match rest.drop ws.length with
      | ',' :: rest3 => some ([opener], rest3)
      | _ => none
    else none
  | [] => none

/-- Matcher collapsing a whitespace run to a single space. -/
def wsRunMatch (s : List Char) : Option (List Char × List Char) :=
  match s with
  | c :: rest =>
    if jsonWsB c then some ([' '], rest.drop (rest.takeWhile jsonWsB).length)
    else none
  | [] => none

/-- Matcher normalizing a quote-colon-quote key-value separator. -/
def colonNormMatch (s : List Char) : Option (List Char × List Char) :=
  match s with
  | c :: rest =>
    if c = quoteChar then
      let ws1 := rest.takeWhile jsonWsB
      match rest.drop ws1.length with
      | ':' :: rest2 =>
        let ws2 := rest2.takeWhile jsonWsB
        match rest2.drop ws2.length with
        | d :: rest3 =>
          if d = quoteChar then
            some ([quoteChar, ':', ' ', quoteChar], rest3)
          else none
        | [] => none
      | _ => none
    else none
  | [] => none

/-- Matcher for a comma, whitespace and a specific closing character;
the comma and whitespace are dropped. -/
def commaWsCloseMatch (closer : Char) (s : List Char) : Option (List Char × List Char) :=
  match s with
  | ',' :: rest =>
    let ws := rest.takeWhile jsonWsB
    match rest.drop ws.length with
    | c :: rest3 => if c = closer then some ([closer], rest3) else none
    | [] => none
  | _ => none

/-- Strip a leading code-fence marker and the whitespace after it. -/
def stripFenceStart (marker : List Char) (l : List Char) : List Char :=
  if marker.isPrefixOf l then
    (l.drop marker.length).dropWhile jsonWsB
  else l

/-- Strip a trailing code-fence marker and the whitespace before it. -/
def stripFenceEnd (l : List Char) : List Char :=
  let ticks := [backtickChar, backtickChar, backtickChar]
  if ticks.isSuffixOf l then
    ((l.take (l.length - 3)).reverse.dropWhile jsonWsB).reverse
  else l

/-- The six required fields of the structured summary document. -/
def requiredFields : List String :=
  ["formatted_summary", "main_topics", "discussion_points",
   "activity_analysis", "special_events", "other_notes"]

/-- The canned placeholder values substituted for unrecoverable fields
by repairTruncatedJson. -/
def defaultValues (field : String) : String :=
  if field = "formatted_summary" then
    "\"*📌 内容总结*\\n\\n由于响应被截断，无法生成完整总结。请重试获取完整内容。\""
  else if field = "main_topics" then "[\"响应截断\"]"
  else if field = "discussion_points" then "[\"内容不完整\"]"
  else if field = "activity_analysis" then "\"响应被截断，无法分析\""
  else if field = "special_events" then "\"无\""
  else "\"请重新尝试获取完整总结\""

/-- The capture group of the permissive field pattern, at the current
position: a lazy quoted string, else a lazy bracketed list, else a
greedy run free of commas and closing braces (tried in that order, as
the regex alternation does). -/
def captureValue (s : List Char) : Option (List Char) :=
  (match s with
   | c :: rest =>
     if c = quoteChar then
       (rest.findIdx? (· = quoteChar)).map fun j => quoteChar :: rest.take (j + 1)
     else none
   | [] => none)
  |>.orElse fun _ =>
  (match s with
   | c :: rest =>
     if c = '[' then
       (rest.findIdx? (· = ']')).map fun j => '[' :: rest.take (j + 1)
     else none
   | [] => none)
  |>.orElse fun _ =>
    (let cap := s.takeWhile fun c => ¬ (c = ',' ∨ c = rbrace)
     if cap = [] then none else some cap)

/-- Try the field pattern anchored at the current position: the quoted
field name, optional whitespace, a colon, optional whitespace, then the
captured value. (When all three capture alternatives fail, the regex
engine can still give back skipped whitespace and capture it, but that
whitespace-only capture is empty after trimming and is replaced by the
placeholder downstream exactly like a failed match.) -/
def matchFieldAt (field : List Char) (s : List Char) : Option (List Char) :=
  if (quoteChar :: field ++ [quoteChar]).isPrefixOf s then
    let rest := s.drop (field.length + 2)
    let rest2 := rest.dropWhile jsonWsB
    match rest2 with
    | ':' :: rest3 => captureValue (rest3.dropWhile jsonWsB)
    | _ => none
  else none

/-- Leftmost match of the field pattern over the whole input. -/
def extractFieldGo (field : List Char) : Nat → List Char → Option (List Char)
  | 0, _ => none
  | _, [] => none
  | fuel + 1, s =>
    match matchFieldAt field s with
    | some v => some v
    | none =>
      match s with
      | _ :: rest => extractFieldGo field fuel rest
      | [] => none

/-- The match of the permissive per-field pattern of
repairTruncatedJson. -/
def extractField (s : List Char) (field : String) : Option (List Char) :=
  extractFieldGo field.data (s.length + 1) s

/-- The extracted value after trimming and quote completion; empty
when the field was not recovered (an empty string is falsy and falls
back to the placeholder, as in the source). -/
def fieldValue (s : List Char) (field : String) : List Char :=
  match extractField s field with
  | none => []
  | some v =>
    let value := strTrimL v
    let startsQ : Bool := match value with | c :: _ => c = quoteChar | [] => false
    let endsQ : Bool := match value.getLast? with | some c => c = quoteChar | none => false
    if startsQ && !endsQ then value ++ [quoteChar] else value

/-- The value used for a field in the rebuilt document: the recovered
value, or the canned placeholder. -/
def fieldOrDefault (s : List Char) (field : String) : List Char :=
  let v := fieldValue s field
  if v = [] then (defaultValues field).data else v

/-- The quote-completed input that repairTruncatedJson extracts from:
with an odd number of double quotes the text was cut inside a string,
so a closing quote is appended first. -/
def repairInput (truncatedJson : List Char) : List Char :=
  if truncatedJson.countP (· == quoteChar) % 2 = 1 then
    truncatedJson ++ [quoteChar]
  else truncatedJson

/-- repairTruncatedJson from src/services/ai/responseHandler.js over
char lists: inputs not starting with a brace are returned unchanged;
otherwise each of the six required fields is extracted independently and
missing ones receive placeholders, producing a complete six-field
document. (The try/catch of the source cannot fire: no operation in the
body throws.) -/
def repairTruncatedJsonL (truncatedJson : List Char) : List Char :=
  if truncatedJson.head? ≠ some lbrace then
    truncatedJson
  else
    let repaired := repairInput truncatedJson
    let jsonParts := requiredFields.map fun f =>
      (quoteChar :: f.data ++ [quoteChar, ':', ' ']) ++ fieldOrDefault repaired f
    lbrace :: (List.intercalate [',', ' '] jsonParts) ++ [rbrace]

/-- repairTruncatedJson on strings. -/
def repairTruncatedJson (truncatedJson : String) : String :=
  ⟨repairTruncatedJsonL truncatedJson.data⟩

/-- cleanJsonContent from src/services/ai/responseHandler.js: falsy
input returned unchanged; otherwise trim, strip code fences, cut to the
outermost braces (or repair a truncation when the closing brace is
missing), drop misplaced commas, collapse control characters and
whitespace runs, normalize key separators and trim. (The try/catch of
the source cannot fire: no operation in the body throws.) -/
def cleanJsonContent (jsonContent : String) : String :=
  if jsonContent = "" then jsonContent
  else
    let cleaned0 := strTrimL jsonContent.data
    let cleaned1 :=
      stripFenceEnd
        (stripFenceStart [backtickChar, backtickChar, backtickChar]
          (stripFenceEnd
            (stripFenceStart
              [backtickChar, backtickChar, backtickChar, 'j', 's', 'o', 'n']
              cleaned0)))
    let cleaned2 :=
      match cleaned1.findIdx? (· = lbrace) with
      | none => cleaned1
      | some firstBrace =>
        match lastIndexOf cleaned1 [rbrace] with
        | none => repairTruncatedJsonL (cleaned1.drop firstBrace)
        | some lastBrace =>
          if lastBrace ≤ firstBrace then
            repairTruncatedJsonL (cleaned1.drop firstBrace)
          else (cleaned1.take (lastBrace + 1)).drop firstBrace
    let cleaned3 :=
      replaceScan (openCommaMatch '[') cleaned2.length
        (replaceScan (openCommaMatch lbrace) cleaned2.length
          (replaceScan commaCloseMatch cleaned2.length cleaned2))
    let cleaned4 :=
      cleaned3.map fun c => if c = '\r' ∨ c = '\n' ∨ c = '\t' then ' ' else c
    let cleaned5 := replaceScan wsRunMatch cleaned4.length cleaned4
    let cleaned6 := replaceScan colonNormMatch cleaned5.length cleaned5
    let cleaned7 :=
      replaceScan (commaWsCloseMatch ']') cleaned6.length
        (replaceScan (commaWsCloseMatch rbrace) cleaned6.length cleaned6)
    ⟨strTrimL cleaned7⟩

/-! extractSummaryFromFailedJson from
src/services/ai/responseHandler.js. -/

/-- Substring containment over char lists. -/
def listContains (s pat : List Char) : Bool :=
  (List.range (s.length + 1)).any fun i => pat.isPrefixOf (s.drop i)

/-- Leftmost match of an anchored matcher over the input. -/
def findFirstMatch (m : List Char → Option (List Char)) :
    Nat → List Char → Option (List Char)
  | 0, _ => none
  | fuel + 1, s =>
    match m s with
    | some v => some v
    | none =>
      match s with
      | _ :: rest => findFirstMatch m fuel rest
      | [] => none

/-- The quoted formatted_summary key. -/
def fsKey : List Char := quoteChar :: ("formatted_summary").data ++ [quoteChar]

/-- The lazy escaped-string capture of the first summary pattern:
tokens are a non-quote non-backslash character or a backslash followed
by a non-newline character, consumed until the first closing quote. -/
def scanP1 : Nat → List Char → Option (List Char)
  | 0, _ => none
  | fuel + 1, s =>
    match s with
    | [] => none
    | c :: rest =>
      if c = quoteChar then some []
      else if c = '\\' then
        match rest with
        | e :: rest2 =>
          if e = '\n' then none
          else (scanP1 fuel rest2).map fun cap => '\\' :: e :: cap
        | [] => none
      else (scanP1 fuel rest).map fun cap => c :: cap

/-- First summary pattern: quoted key, colon, then a properly escaped
string with its closing quote. -/
def matchP1At (s : List Char) : Option (List Char) :=
  if fsKey.isPrefixOf s then
    let rest := (s.drop fsKey.length).dropWhile jsonWsB
    match rest with
    | ':' :: rest2 =>
      match rest2.dropWhile jsonWsB with
      | c :: rest3 =>
        if c = quoteChar then scanP1 (rest3.length + 1) rest3 else none
      | [] => none
    | _ => none
  else none

/-- Second summary pattern: quoted key, colon, an opening quote and a
possibly unterminated run of non-quote characters. -/
def matchP2At (s : List Char) : Option (List Char) :=
  if fsKey.isPrefixOf s then
    let rest := (s.drop fsKey.length).dropWhile jsonWsB
    match rest with
    | ':' :: rest2 =>
      match rest2.dropWhile jsonWsB with
      | c :: rest3 =>
        if c = quoteChar then some (rest3.takeWhile (· ≠ quoteChar)) else none
      | [] => none
    | _ => none
  else none

/-- ASCII lowercase of one character. -/
def asciiLowerChar (c : Char) : Char :=
  if 65 ≤ c.toNat ∧ c.toNat ≤ 90 then Char.ofNat (c.toNat + 32) else c

/-- Case-insensitive prefix test. -/
def isPrefixOfCI : List Char → List Char → Bool
  | [], _ => true
  | _ :: _, [] => false
  | a :: as, b :: bs =>
    (asciiLowerChar a == asciiLowerChar b) && isPrefixOfCI as bs

/-- Third, loose summary pattern: the bare key case-insensitively,
anything up to a colon, optional whitespace and quote, then a run of
non-quote characters. -/
def matchP3At (s : List Char) : Option (List Char) :=
  if isPrefixOfCI ("formatted_summary").data s then
    let rest := s.drop ("formatted_summary").data.length
    let upToColon := rest.takeWhile (· ≠ ':')
    match rest.drop upToColon.length with
    | ':' :: rest3 =>
      let rest4 := rest3.dropWhile jsonWsB
      let rest5 :=
        match rest4 with
        | c :: r => if c = quoteChar then r else rest4
        | [] => rest4
      some (rest5.takeWhile (· ≠ quoteChar))
    | _ => none
  else none

/-- Matcher for a two-character sequence replaced by fixed output. -/
def pairReplace (a b : Char) (out : List Char) (s : List Char) :
    Option (List Char × List Char) :=
  match s with
  | x :: y :: rest => if x = a ∧ y = b then some (out, rest) else none
  | _ => none

/-- The four sequential unescaping passes of the first extraction
method: escaped quote, escaped n to newline, escaped t to space,
doubled backslash. -/
def unescapeSummary (l : List Char) : List Char :=
  let l1 := replaceScan (pairReplace '\\' quoteChar [quoteChar]) l.length l
  let l2 := replaceScan (pairReplace '\\' 'n' ['\n']) l1.length l1
  let l3 := replaceScan (pairReplace '\\' 't' [' ']) l2.length l2
  replaceScan (pairReplace '\\' '\\' ['\\']) l3.length l3

/-- The plausibility test on an extracted summary: markup markers,
pin or speech emoji, or more than thirty characters. -/
def plausibleSummary (l : List Char) : Bool :=
  l.contains '*' || l.contains '📌' || l.contains '💬' || decide (l.length > 30)

/-- One pattern attempt of the first method: leftmost match, a
non-empty capture longer than twenty characters after trimming, then
unescaping and the plausibility gate. -/
def tryPattern (m : List Char → Option (List Char)) (failedJson : List Char) :
    Option (List Char) :=
  match findFirstMatch m (failedJson.length + 1) failedJson with
  | none => none
  | some cap =>
    if cap ≠ [] ∧ (strTrimL cap).length > 20 then
      let extracted := strTrimL (unescapeSummary cap)
      if plausibleSummary extracted then some extracted else none
    else none

/-- Method 1: the three formatted_summary patterns in order. -/
def extractMethod1 (l : List Char) : Option (List Char) :=
  (tryPattern matchP1At l).orElse fun _ =>
    (tryPattern matchP2At l).orElse fun _ =>
      tryPattern matchP3At l

/-- Matcher for a quoted key with a lazily bracketed array capture. -/
def matchArrField (key : String) (s : List Char) : Option (List Char) :=
  if (quoteChar :: key.data ++ [quoteChar]).isPrefixOf s then
    let rest := (s.drop (key.data.length + 2)).dropWhile jsonWsB
    match rest with
    | ':' :: rest2 =>
      match rest2.dropWhile jsonWsB with
      | c :: rest3 =>
        if c = '[' then (rest3.findIdx? (· = ']')).map (rest3.take ·) else none
      | [] => none
    | _ => none
  else none

/-- Matcher for a quoted key with an open-ended string capture. -/
def matchStrFieldOpen (key : String) (s : List Char) : Option (List Char) :=
  if (quoteChar :: key.data ++ [quoteChar]).isPrefixOf s then
    let rest := (s.drop (key.data.length + 2)).dropWhile jsonWsB
    match rest with
    | ':' :: rest2 =>
      match rest2.dropWhile jsonWsB with
      | c :: rest3 =>
        if c = quoteChar then some (rest3.takeWhile (· ≠ quoteChar)) else none
      | [] => none
    | _ => none
  else none

/-- Matcher for a quoted key with a string capture requiring its
closing quote. -/
def matchStrFieldClosed (key : String) (s : List Char) : Option (List Char) :=
  if (quoteChar :: key.data ++ [quoteChar]).isPrefixOf s then
    let rest := (s.drop (key.data.length + 2)).dropWhile jsonWsB
    match rest with
    | ':' :: rest2 =>
      match rest2.dropWhile jsonWsB with
      | c :: rest3 =>
        if c = quoteChar then
          (rest3.findIdx? (· = quoteChar)).map (rest3.take ·)
        else none
      | [] => none
    | _ => none
  else none

/-- The two unescaping passes applied to method-two captures. -/
def unescapePart (l : List Char) : List Char :=
  let l1 := replaceScan (pairReplace '\\' quoteChar [quoteChar]) l.length l
  replaceScan (pairReplace '\\' 'n' ['\n']) l1.length l1

/-- One stored field of the second method: the leftmost capture when
non-empty, unescaped. -/
def extractPart (m : List Char → Option (List Char)) (l : List Char) :
    Option (List Char) :=
  match findFirstMatch m (l.length + 1) l with
  | none => none
  | some cap => if cap = [] then none else some (unescapePart cap)

/-- The bullet-list rendering of a captured array body: strip quotes
and brackets, split on commas, keep non-blank items, prefix
bullets and join with newlines. -/
def bulletize (l : List Char) : List Char :=
  let cleaned := l.filter fun c => ¬ (c = quoteChar ∨ c = '[' ∨ c = ']')
  let parts := cleaned.splitOn ','
  let parts2 := parts.filter fun t => strTrimL t ≠ []
  let parts3 := parts2.map fun t => '•' :: ' ' :: strTrimL t
  List.intercalate ['\n'] parts3

/-- The partially recovered document rebuilt by the second method. -/
def rebuildSummary (mt dp aa se notes : Option (List Char)) : List Char :=
  let b0 := ("*📌 总结内容 (部分恢复)*\n\n").data
  let b1 :=
    match mt with
    | some v => b0 ++ ("*💬 主要话题*\n").data ++ bulletize v ++ ['\n', '\n']
    | none => b0
  let b2 :=
    match dp with
    | some v => b1 ++ ("*💭 讨论要点*\n").data ++ bulletize v ++ ['\n', '\n']
    | none => b1
  let b3 :=
    match aa with
    | some v => b2 ++ ("*👥 活跃度分析*\n").data ++ v ++ ['\n', '\n']
    | none => b2
  let b4 :=
    match se with
    | some v => b3 ++ ("*⭐ 特殊事件*\n").data ++ v ++ ['\n', '\n']
    | none => b3
  let b5 :=
    match notes with
    | some v => b4 ++ ("*📝 其他备注*\n").data ++ v
    | none => b4
  strTrimL b5

/-- Method 2: recover at least two side fields and rebuild a partial
document. -/
def extractMethod2 (l : List Char) : Option (List Char) :=
  let mt := extractPart (matchArrField "main_topics") l
  let dp := extractPart (matchArrField "discussion_points") l
  let aa := extractPart (matchStrFieldOpen "activity_analysis") l
  let se := extractPart (matchStrFieldOpen "special_events") l
  let notes := extractPart (matchStrFieldClosed "other_notes") l
  let cnt := [mt.isSome, dp.isSome, aa.isSome, se.isSome, notes.isSome].countP id
  if 2 ≤ cnt then some (rebuildSummary mt dp aa se notes) else none

/-- Method 3: strip the JSON punctuation, collapse whitespace and use
the visible text when it is long and mentions the summary topics. -/
def extractMethod3 (l : List Char) : Option (List Char) :=
  let stripped := l.map fun c =>
    if c = lbrace ∨ c = rbrace ∨ c = quoteChar ∨ c = ':' ∨ c = '['
        ∨ c = ']' ∨ c = ',' then ' ' else c
  let textContent := strTrimL (replaceScan wsRunMatch stripped.length stripped)
  if 100 < textContent.length
      ∧ (listContains textContent ("话题").data
        ∨ listContains textContent ("讨论").data
        ∨ listContains textContent ("活跃").data) then
    some (("*📌 总结内容 (文本提取)*\n\n").data ++ textContent.take 500
      ++ (if 500 < textContent.length then ("...").data else []))
  else none

/-- extractSummaryFromFailedJson from
src/services/ai/responseHandler.js: a falsy input yields the short
apology; then the three methods in order; with nothing found, the fixed
apologetic message. (The catch-all branch of the source cannot fire: no
operation in the body throws.) -/
def extractSummaryFromFailedJson (failedJson : String) : String :=
  if failedJson = "" then "总结生成时遇到格式问题，请重试。"
  else
    match extractMethod1 failedJson.data with
    | some v => ⟨v⟩
    | none =>
      match extractMethod2 failedJson.data with
      | some v => ⟨v⟩
      | none =>
        match extractMethod3 failedJson.data with
        | some v => ⟨v⟩
        | none =>
          "❌ 总结格式解析失败\n\n正在处理您的请求时遇到了技术问题。\n请稍后重试，"
            ++ "或尝试减少消息数量。\n\n💡 建议：\n• 重新执行 /summary 命令\n"
            ++ "• 尝试总结更少的消息\n• 如果问题持续，请联系管理员"

/-! The three parse tiers of summarizeMessages
(src/services/aiService.js lines 230-253) and the metadata literal
(lines 259-272). -/

/-- The structuredResult produced by summarizeMessages: strict
JSON.parse, then parse of the cleaned text, then the six-field
fallback object embedding the extracted summary. Every raise of the
two parse tiers is caught, so the pipeline is a total function. -/
def parseStructuredResult (rawContent : String) : JsonVal :=
  match jsonParse rawContent with
  | some v => v
  | none =>
    match jsonParse (cleanJsonContent rawContent) with
    | some v => v
    | none =>
      .obj [("formatted_summary", .str (extractSummaryFromFailedJson rawContent)),
            ("main_topics", .arr []),
            ("discussion_points", .arr []),
            ("activity_analysis", .str ""),
            ("special_events", .str ""),
            ("other_notes", .str "")]

/-- Does the value carry all six required fields of the structured
summary document. -/
def isSixFieldDoc : JsonVal → Bool
  | .obj kvs => requiredFields.all fun f => kvs.any fun p => p.1 == f
  | _ => false

/-- Field access on a parsed document. -/
def jsonLookup (v : JsonVal) (key : String) : Option JsonVal :=
  match v with
  | .obj kvs => (kvs.find? (·.1 == key)).map (·.2)
  | _ => none

/-- One entry of the top-participant list. -/
structure TopUser where
  first_name : Option String
  username : Option String
  user_id : Int
  message_count : Nat
  deriving DecidableEq, Repr

/-- A metadata value of the summary result. -/
inductive MetaVal where
  | nat (n : Nat)
  | timeRange (earliest latest : Int)
  | users (us : List TopUser)
  | json (v : JsonVal)

/-- The metadata literal assembled by summarizeMessages (lines
259-272): exactly these six keys, nothing else — in particular no
recovered flag exists anywhere in the code. -/
def mkSummaryMetadata (messagesAnalyzed uniqueUsers : Nat)
    (earliest latest : Int) (topUsers : List TopUser) (tokensUsed : Nat)
    (structuredData : JsonVal) : List (String × MetaVal) :=
  [("messagesAnalyzed", .nat messagesAnalyzed),
   ("uniqueUsers", .nat uniqueUsers),
   ("timeRange", .timeRange earliest latest),
   ("topUsers", .users (topUsers.take 5)),
   ("tokensUsed", .nat tokensUsed),
   ("structuredData", .json structuredData)]

/-- A well-formed six-field provider response. -/
def wDoc : String :=
  "\x7b\"formatted_summary\": \"hello world summary\", \"main_topics\": [], "
    ++ "\"discussion_points\": [], \"activity_analysis\": \"a\", "
    ++ "\"special_events\": \"b\", \"other_notes\": \"c\"\x7d"

/-- The same response truncated mid-string after 38 characters. -/
def tDoc : String := ⟨wDoc.data.take 38⟩

/-! Helper lemmas about substring containment and intercalation. -/

lemma listContains_of_infix (pat s : List Char) (h : pat <:+: s) :
    listContains s pat = true := by
  obtain ⟨u, v, huv⟩ := h
  unfold listContains
  rw [List.any_eq_true]
  refine ⟨u.length, List.mem_range.mpr ?_, ?_⟩
  · rw [← huv]; simp
    omega
  · rw [← huv, List.append_assoc, List.drop_left, List.isPrefixOf_iff_prefix]
    exact List.prefix_append pat v

lemma infix_intercalate_of_mem (sep : List Char) (a : List Char) :
    ∀ (l : List (List Char)), a ∈ l → a <:+: List.intercalate sep l := by
  intro l
  induction l with
  | nil => intro h; cases h
  | cons x xs ih =>
    intro h
    rcases List.mem_cons.mp h with rfl | hx
    · cases xs with
      | nil => simp [List.intercalate]
      | cons y ys =>
        refine ⟨[], sep ++ List.intercalate sep (y :: ys), ?_⟩
        simp [List.intercalate, List.intersperse]
    · cases xs with
      | nil => cases hx
      | cons y ys =>
        obtain ⟨u, v, huv⟩ := ih hx
        refine ⟨x ++ sep ++ u, v, ?_⟩
        rw [show List.intercalate sep (x :: y :: ys)
              = x ++ sep ++ List.intercalate sep (y :: ys) by
            simp [List.intercalate, List.intersperse]]
        rw [← huv]
        simp

/-- C4: for every truncated input beginning with a brace, an odd
double-quote count makes the repair append a closing quote first; each
of the six required fields is then extracted independently by the
permissive pattern, unrecoverable ones receive the canned placeholder,
and the result is the complete six-field document — every field label
appears in it — rather than a failure. -/
theorem repairTruncatedJson_repairs (s : List Char) (h : s.head? = some lbrace) :
    repairInput s =
      (if s.countP (· == quoteChar) % 2 = 1 then s ++ [quoteChar] else s)
    ∧ repairTruncatedJsonL s =
        lbrace :: (List.intercalate [',', ' ']
          (requiredFields.map fun f =>
            (quoteChar :: f.data ++ [quoteChar, ':', ' '])
              ++ fieldOrDefault (repairInput s) f)) ++ [rbrace]
    ∧ (∀ f ∈ requiredFields, extractField (repairInput s) f = none →
        fieldOrDefault (repairInput s) f = (defaultValues f).data)
    ∧ (∀ f ∈ requiredFields,
        listContains (repairTruncatedJsonL s)
          (quoteChar :: f.data ++ [quoteChar, ':', ' ']) = true) := by
  have hcond : ¬ (s.head? ≠ some lbrace) := by simp [h]
  have hrep : repairTruncatedJsonL s =
      lbrace :: (List.intercalate [',', ' ']
        (requiredFields.map fun f =>
          (quoteChar :: f.data ++ [quoteChar, ':', ' '])
            ++ fieldOrDefault (repairInput s) f)) ++ [rbrace] := by
    unfold repairTruncatedJsonL
    rw [if_neg hcond]
  refine ⟨rfl, hrep, ?_, ?_⟩
  · intro f hf hnone
    simp [fieldOrDefault, fieldValue, hnone]
  · intro f hf
    have hmem :
        ((quoteChar :: f.data ++ [quoteChar, ':', ' '])
            ++ fieldOrDefault (repairInput s) f)
          ∈ requiredFields.map (fun g =>
              (quoteChar :: g.data ++ [quoteChar, ':', ' '])
                ++ fieldOrDefault (repairInput s) g) :=
      List.mem_map_of_mem _ hf
    obtain ⟨u, v, huv⟩ :=
      infix_intercalate_of_mem [',', ' '] _ _ hmem
    apply listContains_of_infix
    rw [hrep]
    refine ⟨lbrace :: u, fieldOrDefault (repairInput s) f ++ v ++ [rbrace], ?_⟩
    rw [← huv]
    simp

theorem repairTruncatedJson_repairs_witness :
    (("\x7b\"special_events\": \"party").data.head? = some lbrace)
    ∧ (repairInput ("\x7b\"special_events\": \"party").data =
        (if ("\x7b\"special_events\": \"party").data.countP (· == quoteChar) % 2 = 1
          then ("\x7b\"special_events\": \"party").data ++ [quoteChar]
          else ("\x7b\"special_events\": \"party").data)
      ∧ repairTruncatedJsonL ("\x7b\"special_events\": \"party").data =
          lbrace :: (List.intercalate [',', ' ']
            (requiredFields.map fun f =>
              (quoteChar :: f.data ++ [quoteChar, ':', ' '])
                ++ fieldOrDefault
                    (repairInput ("\x7b\"special_events\": \"party").data) f))
            ++ [rbrace]
      ∧ (∀ f ∈ requiredFields,
          extractField (repairInput ("\x7b\"special_events\": \"party").data) f
              = none →
            fieldOrDefault (repairInput ("\x7b\"special_events\": \"party").data) f
              = (defaultValues f).data)
      ∧ (∀ f ∈ requiredFields,
          listContains (repairTruncatedJsonL ("\x7b\"special_events\": \"party").data)
            (quoteChar :: f.data ++ [quoteChar, ':', ' ']) = true)) :=
  ⟨by decide,
   repairTruncatedJson_repairs ("\x7b\"special_events\": \"party").data (by decide)⟩

/-- C3 (amended): the normalization pipeline is a total function; when
both the strict parse and the parse of the cleaned text fail it returns
the six-field fallback document whose formatted_summary is the text
recovered by extractSummaryFromFailedJson, and with a falsy input the
recovered text is the fixed apologetic message. The claim's universal
six-field conclusion does not hold for every input: valid but
non-object JSON shapes pass the strict parse unchanged. -/
theorem parseStructuredResult_total_fallback (raw : String)
    (h1 : jsonParse raw = none)
    (h2 : jsonParse (cleanJsonContent raw) = none) :
    parseStructuredResult raw =
      .obj [("formatted_summary", .str (extractSummaryFromFailedJson raw)),
            ("main_topics", .arr []),
            ("discussion_points", .arr []),
            ("activity_analysis", .str ""),
            ("special_events", .str ""),
            ("other_notes", .str "")]
    ∧ isSixFieldDoc (parseStructuredResult raw) = true
    ∧ extractSummaryFromFailedJson "" = "总结生成时遇到格式问题，请重试。" := by
  have hp : parseStructuredResult raw =
      .obj [("formatted_summary", .str (extractSummaryFromFailedJson raw)),
            ("main_topics", .arr []),
            ("discussion_points", .arr []),
            ("activity_analysis", .str ""),
            ("special_events", .str ""),
            ("other_notes", .str "")] := by
    unfold parseStructuredResult
    rw [h1, h2]
  refine ⟨hp, ?_, rfl⟩
  rw [hp]
  rfl

theorem parseStructuredResult_total_fallback_witness :
    jsonParse "not json" = none
    ∧ jsonParse (cleanJsonContent "not json") = none
    ∧ isSixFieldDoc (parseStructuredResult "not json") = true :=
  ⟨rfl, rfl, (parseStructuredResult_total_fallback "not json" rfl rfl).2.1⟩

/-- C3 counterexample: the claim promises a six-field document for
every input, but the valid JSON text null passes the strict parse and
the pipeline returns the null value, which carries none of the six
fields (the downstream field access then raises on it). -/
theorem parseStructuredResult_claim_counterexample :
    jsonParse "null" = some JsonVal.null
    ∧ parseStructuredResult "null" = JsonVal.null
    ∧ isSixFieldDoc (parseStructuredResult "null") = false :=
  ⟨rfl, rfl, rfl⟩

set_option maxRecDepth 100000 in
/-- C9 (amended): the metadata of a summary result carries exactly the
keys messagesAnalyzed, uniqueUsers, timeRange, topUsers, tokensUsed and
structuredData — no recovered flag exists; for the concrete well-formed
document and its truncated-mid-string prefix, the strict parse accepts
the former and rejects the latter, and both normalize to a document
with a non-empty formatted_summary. -/
theorem summaryMetadata_no_recovered_flag (ma uu : Nat) (e l : Int)
    (tu : List TopUser) (tk : Nat) (sd : JsonVal) :
    (mkSummaryMetadata ma uu e l tu tk sd).map Prod.fst =
      ["messagesAnalyzed", "uniqueUsers", "timeRange", "topUsers",
       "tokensUsed", "structuredData"]
    ∧ tDoc.data <+: wDoc.data
    ∧ (jsonParse wDoc).isSome = true
    ∧ jsonParse tDoc = none
    ∧ jsonLookup (parseStructuredResult wDoc) "formatted_summary"
        = some (.str "hello world summary")
    ∧ jsonLookup (parseStructuredResult tDoc) "formatted_summary"
        = some (.str "hello world sum") :=
  ⟨rfl, List.take_prefix 38 wDoc.data, rfl, rfl, rfl, rfl⟩

set_option maxRecDepth 100000 in
/-- C9 counterexample: recovery degrades on the truncated document —
the strict parse fails and the result is produced by truncation repair
— yet the metadata assembled around it has no recovered key at all. -/
theorem summaryMetadata_claim_counterexample :
    jsonParse tDoc = none
    ∧ isSixFieldDoc (parseStructuredResult tDoc) = true
    ∧ List.find? (fun p => p.1 == "recovered")
        (mkSummaryMetadata 10 3 0 100 [] 42 (parseStructuredResult tDoc))
        = none :=
  ⟨rfl, rfl, rfl⟩

end SummaryBot
